import Mathlib

/-!
Verification of the contact field-mapping, avatar, store and export logic of
the AI-Concard-scaner web application.

JavaScript strings are modelled as lists of characters (`JStr`); every string
operation of the source (trim, split, includes, toUpperCase, ...) is given an
executable Lean counterpart operating on such lists.  The per-character
`Char.toUpper`/`Char.toLower` functions model the ASCII behaviour of the
JavaScript `toUpperCase`/`toLowerCase` methods.  Machine arithmetic of the
hash function uses `Int` with explicit reduction modulo 2^32.
-/

/-- JavaScript string, modelled as its list of UTF-16 units/characters. -/
abbrev JStr := List Char

/-- Coerce a Lean string literal to the `JStr` model. -/
def toL (s : String) : JStr := s.data

/-- The whitespace test used by JavaScript `trim` and the `\s` regex class
(restricted to the ASCII whitespace characters relevant here). -/
def isJsWs (c : Char) : Bool :=
  c = ' ' ∨ c = '\t' ∨ c = '\n' ∨ c = '\r' ∨ c = '\x0b' ∨ c = '\x0c'

/-- JavaScript `String.prototype.trim`: drop whitespace from both ends. -/
def jsTrim (s : JStr) : JStr :=
  ((s.dropWhile isJsWs).reverse.dropWhile isJsWs).reverse

/-- JavaScript `split` against a class of single-character separators:
`jsSplit p s` cuts `s` at every character satisfying `p` (separator
characters are dropped); the empty string yields `[[]]`, exactly as
`"".split(sep)` yields `[""]` in JavaScript. -/
def jsSplit (p : Char → Bool) (s : JStr) : List JStr := s.splitOnP p

/-- Does `s` start with `pfx`?  Models `String.prototype.startsWith`. -/
def startsW (s pfx : JStr) : Bool :=
  s.take pfx.length = pfx

/-- `strIncludes s n` models `s.includes(n)`: is `n` a contiguous substring
of `s`?  As in JavaScript, every string includes the empty string. -/
def strIncludes (s n : JStr) : Bool :=
  match s with
  | [] => startsW [] n
  | _ :: t => startsW s n || strIncludes t n

/-- Join a list of strings with the separator `sep` between consecutive
elements; models `Array.prototype.join`. -/
def joinSep (sep : JStr) : List JStr → JStr
  | [] => []
  | [x] => x
  | x :: y :: xs => x ++ sep ++ joinSep sep (y :: xs)

/-- Per-character model of `String.prototype.toUpperCase` (ASCII-faithful). -/
def upperStr (s : JStr) : JStr := s.map Char.toUpper

/-- Per-character model of `String.prototype.toLowerCase` (ASCII-faithful). -/
def lowerStr (s : JStr) : JStr := s.map Char.toLower

/-- The maximal whitespace-separated tokens of a string: what a JavaScript
`split(/\s+/)` returns on a string without leading/trailing whitespace
(with the single empty piece of an empty input removed). -/
def tokensWs (s : JStr) : List JStr :=
  (jsSplit isJsWs s).filter (fun t => ¬ t = [])

/-- JavaScript `split(/\s+/)` applied to an already-trimmed string: the empty
string yields `[""]`, any other trimmed string yields its whitespace tokens. -/
def jsSplitWsRuns (s : JStr) : List JStr :=
  if s = [] then [[]] else tokensWs s

theorem jsSplit_ne_nil (p : Char → Bool) (l : JStr) : jsSplit p l ≠ [] :=
  List.splitOnP_ne_nil p l

theorem jsSplit_sepFree (p : Char → Bool) (l : JStr)
    (h : ∀ c ∈ l, ¬ p c) : jsSplit p l = [l] :=
  List.splitOnP_eq_single p l h

theorem jsSplit_append_sep (p : Char → Bool) (a rest : JStr) (s : Char)
    (ha : ∀ c ∈ a, ¬ p c) (hs : p s) :
    jsSplit p (a ++ s :: rest) = a :: jsSplit p rest :=
  List.splitOnP_first p a ha s hs rest

theorem jsSplit_cons_sep (p : Char → Bool) (c : Char) (l : JStr)
    (hc : p c) : jsSplit p (c :: l) = [] :: jsSplit p l := by
  unfold jsSplit
  rw [List.splitOnP_cons, if_pos hc]

theorem jsSplit_allSep (p : Char → Bool) (b : JStr)
    (hb : ∀ c ∈ b, p c) :
    jsSplit p b = List.replicate b.length [] ++ [[]] := by
  induction b with
  | nil => simp [jsSplit, List.splitOnP_nil]
  | cons c cs ih =>
    have hc : p c := hb c (List.mem_cons_self c cs)
    have hcs : ∀ x ∈ cs, p x := fun x hx => hb x (List.mem_cons_of_mem c hx)
    rw [jsSplit_cons_sep p c cs hc, ih hcs]
    simp [List.replicate_succ]

theorem jsSplit_append_allSep (p : Char → Bool) (a b : JStr)
    (hb : ∀ c ∈ b, p c) :
    jsSplit p (a ++ b) = jsSplit p a ++ List.replicate b.length [] := by
  induction a with
  | nil =>
    rw [List.nil_append, jsSplit_allSep p b hb]
    show List.replicate b.length ([] : JStr) ++ [[]] =
      jsSplit p [] ++ List.replicate b.length []
    rw [← List.replicate_succ']
    show List.replicate (b.length + 1) ([] : JStr) = [[]] ++ _
    rw [List.replicate_succ]
    rfl
  | cons c cs ih =>
    unfold jsSplit at *
    rw [List.cons_append, List.splitOnP_cons, List.splitOnP_cons, ih]
    by_cases hc : p c
    · simp [hc]
    · simp only [hc, if_false]
      cases h : List.splitOnP p cs with
      | nil => exact absurd h (List.splitOnP_ne_nil p cs)
      | cons h2 t2 => simp [List.modifyHead]

theorem jsSplit_allSep_prepend (p : Char → Bool) (b a : JStr)
    (hb : ∀ c ∈ b, p c) :
    jsSplit p (b ++ a) = List.replicate b.length [] ++ jsSplit p a := by
  induction b with
  | nil => simp
  | cons c cs ih =>
    have hc : p c := hb c (List.mem_cons_self c cs)
    have hcs : ∀ x ∈ cs, p x := fun x hx => hb x (List.mem_cons_of_mem c hx)
    rw [List.cons_append, jsSplit_cons_sep p c _ hc, ih hcs]
    simp [List.replicate_succ]

theorem jsSplit_flatten_filter (p : Char → Bool) (l : JStr) :
    (jsSplit p l).flatten = l.filter (fun c => ¬ p c) := by
  induction l with
  | nil => simp [jsSplit, List.splitOnP_nil]
  | cons c cs ih =>
    unfold jsSplit at *
    rw [List.splitOnP_cons, List.filter_cons]
    by_cases hc : p c
    · simp [hc, ih]
    · simp only [hc, if_false]
      cases h : List.splitOnP p cs with
      | nil => exact absurd h (List.splitOnP_ne_nil p cs)
      | cons h2 t2 =>
        rw [h] at ih
        simp_all [List.modifyHead, List.flatten]

theorem jsSplit_pieces_sepFree (p : Char → Bool) (l : JStr) :
    ∀ piece ∈ jsSplit p l, ∀ c ∈ piece, ¬ p c := by
  induction l with
  | nil =>
    intro piece hp c hc
    simp [jsSplit, List.splitOnP_nil] at hp
    subst hp
    simp at hc
  | cons x xs ih =>
    intro piece hp c hc
    unfold jsSplit at hp ih
    rw [List.splitOnP_cons] at hp
    by_cases hx : p x
    · simp only [hx, if_true] at hp
      rcases List.mem_cons.mp hp with h1 | h1
      · subst h1; simp at hc
      · exact ih piece h1 c hc
    · simp only [hx, if_false] at hp
      cases h : List.splitOnP p xs with
      | nil => exact absurd h (List.splitOnP_ne_nil p xs)
      | cons h2 t2 =>
        rw [h] at hp
        simp only [List.modifyHead] at hp
        rcases List.mem_cons.mp hp with h1 | h1
        · subst h1
          rcases List.mem_cons.mp hc with h3 | h3
          · subst h3; exact hx
          · exact ih h2 (h ▸ List.mem_cons_self h2 t2) c h3
        · exact ih piece (h ▸ List.mem_cons_of_mem h2 h1) c hc

theorem tokensWs_wsSuffix (a b : JStr) (hb : ∀ c ∈ b, isJsWs c) :
    tokensWs (a ++ b) = tokensWs a := by
  unfold tokensWs
  rw [jsSplit_append_allSep isJsWs a b hb, List.filter_append]
  have : (List.replicate b.length ([] : JStr)).filter
      (fun t => ¬ t = []) = [] := by
    apply List.filter_eq_nil_iff.mpr
    intro x hx
    rw [List.eq_of_mem_replicate hx]
    simp
  rw [this, List.append_nil]

theorem tokensWs_wsPrefix (b a : JStr) (hb : ∀ c ∈ b, isJsWs c) :
    tokensWs (b ++ a) = tokensWs a := by
  unfold tokensWs
  rw [jsSplit_allSep_prepend isJsWs b a hb, List.filter_append]
  have : (List.replicate b.length ([] : JStr)).filter
      (fun t => ¬ t = []) = [] := by
    apply List.filter_eq_nil_iff.mpr
    intro x hx
    rw [List.eq_of_mem_replicate hx]
    simp
  rw [this, List.nil_append]

theorem tokensWs_jsTrim (s : JStr) : tokensWs (jsTrim s) = tokensWs s := by
  unfold jsTrim
  have h1 : s = s.takeWhile isJsWs ++ s.dropWhile isJsWs :=
    (List.takeWhile_append_dropWhile isJsWs s).symm
  set m := s.dropWhile isJsWs with hm
  have h2 : m = (m.reverse.dropWhile isJsWs).reverse ++
      (m.reverse.takeWhile isJsWs).reverse := by
    conv_lhs => rw [← List.reverse_reverse m]
    rw [← List.reverse_append, List.takeWhile_append_dropWhile]
  calc tokensWs (m.reverse.dropWhile isJsWs).reverse
      = tokensWs ((m.reverse.dropWhile isJsWs).reverse ++
          (m.reverse.takeWhile isJsWs).reverse) := by
        rw [tokensWs_wsSuffix]
        intro c hc
        rw [List.mem_reverse] at hc
        exact List.mem_takeWhile_imp hc
    _ = tokensWs m := by rw [← h2]
    _ = tokensWs (s.takeWhile isJsWs ++ m) := by
        rw [tokensWs_wsPrefix]
        intro c hc
        exact List.mem_takeWhile_imp hc
    _ = tokensWs s := by rw [hm, ← h1]

/-!
## Data model

`Contact` mirrors the `Contact` interface of `src/types.ts`.  Optional
fields are `Option`s; `isFavorite` is modelled as a plain `Bool` (the
source only ever reads it through truthiness, under which an absent value
and `false` are indistinguishable).  `OCR` mirrors the `OCRResult`
interface, the partial-record shape shared by all field mappers.
-/

structure Contact where
  id : JStr
  name : JStr
  title : Option JStr := none
  company : Option JStr := none
  phone : Option (List JStr) := none
  email : Option (List JStr) := none
  address : Option JStr := none
  website : Option JStr := none
  notes : Option JStr := none
  cardImageUrl : Option JStr := none
  isFavorite : Bool := false
  createdAt : JStr := []
  updatedAt : JStr := []
deriving DecidableEq

structure OCR where
  name : Option JStr := none
  title : Option JStr := none
  company : Option JStr := none
  phone : Option (List JStr) := none
  email : Option (List JStr) := none
  address : Option JStr := none
  website : Option JStr := none
  notes : Option JStr := none
deriving DecidableEq

/-- JavaScript truthiness of an optional string: present and non-empty. -/
def truthyOpt (o : Option JStr) : Bool :=
  match o with
  | some v => ¬ v = []
  | none => false

/-!
## Avatar generator (src/utils/avatarGenerator.ts)
-/

/-- getInitials: `'??'` for a falsy name; otherwise trim, split on runs of
whitespace, and take the first two characters of a single token or the
first characters of the first and last tokens.  The `headD`/`getLastD`
defaults are unreachable: in the multi-token branch every token of a
trimmed string is non-empty. -/
def getInitials (name : JStr) : JStr :=
  if name = [] then toL "??"
  else
    let parts := jsSplitWsRuns (jsTrim name)
    if parts.length = 1 then upperStr ((parts.headD []).take 2)
    else upperStr [(parts.headD []).headD '?', (parts.getLastD []).headD '?']

/-- ToInt32 of an exact JavaScript number: reduce modulo 2^32 into the
signed 32-bit range. -/
def jsToInt32 (z : Int) : Int :=
  let m := z % (2 ^ 32 : Int)
  if m < 2 ^ 31 then m else m - 2 ^ 32

/-- One step of the rolling hash: `str.charCodeAt(i) + ((hash << 5) - hash)`.
The shift coerces to Int32 and keeps the low 32 bits; the subtraction and
addition are exact (the values stay far below 2^53). -/
def hashStep (h : Int) (code : Nat) : Int :=
  (code : Int) + (jsToInt32 (jsToInt32 h * 32) - h)

/-- The rolling hash of generateColorFromString over the string's
character codes. -/
def strHash (s : JStr) : Int :=
  s.foldl (fun h c => hashStep h c.toNat) 0

/-- The JavaScript `%` operator on integers (remainder, sign of the
dividend): truncated modulus. -/
def jsRem (a b : Int) : Int := Int.tmod a b

/-- `Math.abs(hash % 360)`. -/
def hueOf (s : JStr) : Nat := (jsRem (strHash s) 360).natAbs

/-- `65 + (Math.abs(hash) % 20)`. -/
def satOf (s : JStr) : Nat := 65 + (strHash s).natAbs % 20

/-- `50 + (Math.abs(hash >> 8) % 15)`; `>>` coerces to Int32 and shifts
arithmetically, i.e. floor-divides by 256. -/
def lightOf (s : JStr) : Nat := 50 + (Int.fdiv (jsToInt32 (strHash s)) 256).natAbs % 15

/-- Decimal rendering of a number, for interpolation into strings. -/
def natToStr (n : Nat) : JStr := (Nat.repr n).data

/-- generateColorFromString: the rolling hash rendered as an
`hsl(h, s%, l%)` template string. -/
def generateColorFromString (s : JStr) : JStr :=
  toL "hsl(" ++ natToStr (hueOf s) ++ toL ", " ++ natToStr (satOf s)
    ++ toL "%, " ++ natToStr (lightOf s) ++ toL "%)"

/-- Upper-case hexadecimal digit, for percent-encoding. -/
def hexDigit (n : Nat) : Char := (toL "0123456789ABCDEF").getD n '0'

/-- Model of the `encodeURIComponent` builtin on ASCII input: unreserved
characters pass through, everything else is percent-encoded. -/
def encodeURIComponentChar (c : Char) : JStr :=
  if ('A' ≤ c ∧ c ≤ 'Z') ∨ ('a' ≤ c ∧ c ≤ 'z') ∨ ('0' ≤ c ∧ c ≤ '9')
      ∨ c = '-' ∨ c = '_' ∨ c = '.' ∨ c = '!' ∨ c = '~' ∨ c = '*'
      ∨ c = '\'' ∨ c = '(' ∨ c = ')' then [c]
  else ['%', hexDigit (c.toNat / 16 % 16), hexDigit (c.toNat % 16)]

def encodeURIComponentStr (s : JStr) : JStr :=
  (s.map encodeURIComponentChar).flatten

/-- The style table of generateDiceBearAvatar, with the
`styleMap[style] || 'avataaars'` fallback. -/
def diceBearStyleMap (style : JStr) : JStr :=
  if style = toL "dicebear" then toL "avataaars"
  else if style = toL "bottts" then toL "bottts"
  else if style = toL "avataaars" then toL "avataaars"
  else if style = toL "personas" then toL "personas"
  else toL "avataaars"

/-- generateDiceBearAvatar: a pure URL builder. -/
def generateDiceBearAvatar (name style : JStr) (size : Nat) : JStr :=
  toL "https://api.dicebear.com/7.x/" ++ diceBearStyleMap style
    ++ toL "/svg?seed=" ++ encodeURIComponentStr name
    ++ toL "&size=" ++ natToStr size

/-- generateAvatar for the 'personas' style, the only style the dashboard
avatar action requests; this branch of the switch delegates to the
DiceBear URL builder (the canvas-rendered styles are browser drawing and
are not modelled). -/
def generateAvatarPersonas (name : JStr) (size : Nat) : JStr :=
  generateDiceBearAvatar name (toL "personas") size

/-- The parameter shape of autoGenerateAvatar:
`{ name?: string; imageUrl?: string }`. -/
structure AvatarInput where
  name : Option JStr
  imageUrl : Option JStr

/-- A `Contact` passed where an `AvatarInput` is expected.  The `Contact`
interface of `src/types.ts` declares `cardImageUrl` but no `imageUrl`
property, so the structural read of `imageUrl` always yields `undefined`. -/
def contactAsAvatarInput (c : Contact) : AvatarInput :=
  { name := some c.name, imageUrl := none }

/-- autoGenerateAvatar with preferred style 'personas': return the existing
image if truthy, `undefined` without a truthy name, otherwise the
generated avatar URL. -/
def autoGenerateAvatarPersonas (contact : AvatarInput) : Option JStr :=
  if truthyOpt contact.imageUrl then contact.imageUrl
  else if ¬ truthyOpt contact.name then none
  else some (generateAvatarPersonas (contact.name.getD []) 400)

/-!
## vCard exporter (src/utils/contactSaver.ts, generateVCard)

`rev` is the pre-rendered `REV` timestamp (in the source it is derived
from the wall clock, an ambient input made explicit here).
-/

/-- The `N`/`FN` lines: name split on the space character, the last part as
family name when there are at least two parts, the space-join of the
remaining parts (or the whole name) as given name. -/
def vcardNameLines (name : JStr) : List JStr :=
  if name = [] then []
  else
    let nameParts := jsSplit (fun c => c = ' ') name
    let lastName := if 1 < nameParts.length then nameParts.getLastD [] else []
    let firstName :=
      if 1 < nameParts.length then joinSep (toL " ") nameParts.dropLast else name
    [toL "N:" ++ lastName ++ toL ";" ++ firstName ++ toL ";;;",
     toL "FN:" ++ name]

/-- The `TEL` lines: index 0 gets `TYPE=WORK`, later entries `TYPE=CELL`. -/
def vcardTelLines (phones : List JStr) : List JStr :=
  match phones with
  | [] => []
  | p :: rest =>
    (toL "TEL;TYPE=WORK:" ++ p) :: rest.map (fun q => toL "TEL;TYPE=CELL:" ++ q)

/-- One optional single-valued line, guarded by JavaScript truthiness. -/
def vcardOptLine (mk : JStr → JStr) (o : Option JStr) : List JStr :=
  match o with
  | some v => if v = [] then [] else [mk v]
  | none => []

/-- The line array built by generateVCard, in push order.  The PHOTO block
is guarded by `contact.imageUrl`, a property the `Contact` type
(src/types.ts) does not declare; that read is always `undefined`, so no
PHOTO line is ever emitted for a `Contact` argument. -/
def generateVCardLines (c : Contact) (rev : JStr) : List JStr :=
  [toL "BEGIN:VCARD", toL "VERSION:3.0"]
  ++ vcardNameLines c.name
  ++ vcardOptLine (fun v => toL "ORG:" ++ v) c.company
  ++ vcardOptLine (fun v => toL "TITLE:" ++ v) c.title
  ++ (match c.phone with
      | some ps => vcardTelLines ps
      | none => [])
  ++ (match c.email with
      | some es => es.map (fun e => toL "EMAIL;TYPE=INTERNET:" ++ e)
      | none => [])
  ++ vcardOptLine (fun v => toL "URL:" ++ v) c.website
  ++ vcardOptLine (fun v => toL "ADR;TYPE=WORK:;;" ++ v ++ toL ";;;;") c.address
  ++ vcardOptLine (fun v => toL "NOTE:" ++ v) c.notes
  ++ [toL "REV:" ++ rev]
  ++ [toL "END:VCARD"]

/-- generateVCard: the lines joined with CRLF terminators. -/
def generateVCard (c : Contact) (rev : JStr) : JStr :=
  joinSep (toL "\r\n") (generateVCardLines c rev)

/-!
## vCard parser (src/components/AddCardModal.tsx, parseVCard)
-/

/-- `line.substring(line.indexOf(':') + 1)`: everything after the first
colon, or the whole line when there is none (indexOf yields -1). -/
def afterColon (line : JStr) : JStr :=
  if line.any (fun c => c = ':') then (line.dropWhile (fun c => ¬ c = ':')).drop 1
  else line

/-- One iteration of the parseVCard line loop: each prefix test mutates the
accumulated partial record; `TEL`/`EMAIL` values accumulate and are
dropped when empty after trimming. -/
def stepLine (r : OCR) (line : JStr) : OCR :=
  let r1 := if startsW line (toL "FN:") || startsW line (toL "NAME:") then
      { r with name := some (jsTrim (afterColon line)) } else r
  let r2 := if startsW line (toL "ORG:") then
      { r1 with company := some (jsTrim (afterColon line)) } else r1
  let r3 := if startsW line (toL "TITLE:") then
      { r2 with title := some (jsTrim (afterColon line)) } else r2
  let r4 := if startsW line (toL "TEL") then
      (let val := jsTrim (afterColon line)
       if val = [] then r3 else { r3 with phone := some (r3.phone.getD [] ++ [val]) })
    else r3
  let r5 := if startsW line (toL "EMAIL") then
      (let val := jsTrim (afterColon line)
       if val = [] then r4 else { r4 with email := some (r4.email.getD [] ++ [val]) })
    else r4
  let adrVal := jsTrim ((afterColon line).map (fun c => if c = ';' then ' ' else c))
  let r6 := if startsW line (toL "ADR:") then
      { r5 with address := some adrVal }
    else r5
  let r7 := if startsW line (toL "URL:") then
      { r6 with website := some (jsTrim (afterColon line)) } else r6
  let r8 := if startsW line (toL "NOTE:") then
      { r7 with notes := some (jsTrim (afterColon line)) } else r7
  r8

/-- Strip one trailing carriage return, if present. -/
def stripCR1 (l : JStr) : JStr :=
  if l.getLast? = some '\r' then l.dropLast else l

/-- Strip a trailing `\r` from every piece except the final one. -/
def stripCRButLast : List JStr → List JStr
  | [] => []
  | [x] => [x]
  | x :: y :: xs => stripCR1 x :: stripCRButLast (y :: xs)

/-- `split(/\r?\n/)`: split at every `\n`, consuming one `\r` immediately
before it. -/
def splitLinesRN (s : JStr) : List JStr :=
  stripCRButLast (jsSplit (fun c => c = '\n') s)

/-- parseVCard: fold the line handler over the lines of the text. -/
def parseVCard (s : JStr) : OCR :=
  (splitLinesRN s).foldl stepLine {}

/-!
## Review-form save (src/components/AddCardModal.tsx, handleSaveContact)
-/

/-- The review form state; fields are absent or strings, as in the
`CardFormData` interface. -/
structure CardForm where
  name : Option JStr := none
  title : Option JStr := none
  company : Option JStr := none
  phone : Option JStr := none
  email : Option JStr := none
  address : Option JStr := none
  website : Option JStr := none
  notes : Option JStr := none

/-- Split a comma-separated multi-value form field: split on commas, trim
each token, drop the empties (`filter(Boolean)`). -/
def splitFormList (v : JStr) : List JStr :=
  ((jsSplit (fun c => c = ',') v).map jsTrim).filter (fun t => ¬ t = [])

/-- The single-contact branch of handleSaveContact: a missing name blocks
the save; otherwise the contact record is assembled, with phone/email
split-trim-filtered and the preview image collapsed to absent when falsy.
`initial` is the contact being edited, if any; `newId`/`now` make the
`crypto.randomUUID()` and wall-clock inputs explicit. -/
def handleSaveContact (form : CardForm) (initial : Option Contact)
    (previewUrl : Option JStr) (newId now : JStr) : Option Contact :=
  if ¬ truthyOpt form.name then none
  else some {
    id := (match initial with | some i => i.id | none => newId)
    name := form.name.getD []
    title := form.title
    company := form.company
    phone := if truthyOpt form.phone then some (splitFormList (form.phone.getD [])) else none
    email := if truthyOpt form.email then some (splitFormList (form.email.getD [])) else none
    address := form.address
    website := form.website
    notes := form.notes
    cardImageUrl := if truthyOpt previewUrl then previewUrl else none
    isFavorite := (match initial with | some i => i.isFavorite | none => false)
    createdAt := (match initial with | some i => i.createdAt | none => now)
    updatedAt := now }

/-!
## CSV row mapper (src/components/AddCardModal.tsx, handleParseDocument,
CSV branch)

The CSV tokenisation itself is performed by the external Papa Parse
library; it is modelled here for the restricted inputs the claims use:
fields without embedded quotes, commas or line breaks, where a parsed cell
is the quoted cell with its surrounding quotes removed.
-/

/-- `transformHeader`: lower-case, trim, strip every character that is not
a lower-case letter or digit. -/
def transformHeader (h : JStr) : JStr :=
  (jsTrim (lowerStr h)).filter (fun c => ('a' ≤ c ∧ c ≤ 'z') ∨ ('0' ≤ c ∧ c ≤ '9'))

/-- A parsed CSV row object: transformed header keys with cell values, in
column order. -/
abbrev CsvRow := List (JStr × JStr)

/-- `row[k]`, with a missing key reading as the (falsy) empty string. -/
def rowVal (row : CsvRow) (k : JStr) : JStr :=
  match row.find? (fun e => e.1 = k) with
  | some e => e.2
  | none => []

/-- `findField`: first alias with a truthy exact-key value wins; otherwise
the first header that contains the alias as a substring is consulted, and
the loop moves to the next alias when that value is falsy too. -/
def findField (row : CsvRow) : List JStr → JStr
  | [] => []
  | k :: ks =>
    if ¬ rowVal row k = [] then rowVal row k
    else
      match row.find? (fun e => strIncludes e.1 k) with
      | some e => if ¬ e.2 = [] then e.2 else findField row ks
      | none => findField row ks

/-- Multi-value cell splitting on import: split on `;` or `,`, trim each
token, drop empties. -/
def splitCsvList (v : JStr) : List JStr :=
  ((jsSplit (fun c => c = ';' ∨ c = ',') v).map jsTrim).filter (fun t => ¬ t = [])

/-- The per-row contact construction of the CSV branch: rows without a
derivable name are skipped; `id`/`now` make the `crypto.randomUUID()` and
wall-clock inputs explicit. -/
def csvRowToContact (row : CsvRow) (fileName id now : JStr) : Option Contact :=
  let name0 := findField row [toL "name", toL "fullname", toL "displayname",
    toL "person", toL "contactperson", toL "entryname"]
  let contactName :=
    if name0 = [] then
      let first := findField row [toL "given", toL "first", toL "fname"]
      let last := findField row [toL "family", toL "last", toL "lname"]
      joinSep (toL " ") ([first, last].filter (fun x => ¬ x = []))
    else name0
  if contactName = [] then none
  else some {
    id := id
    name := contactName
    title := some (findField row [toL "title", toL "job", toL "position",
      toL "role", toL "designation"])
    company := some (findField row [toL "company", toL "organization",
      toL "firm", toL "business", toL "org"])
    phone := some (splitCsvList (findField row [toL "phone", toL "mobile",
      toL "tel", toL "cell", toL "mob"]))
    email := some (splitCsvList (findField row [toL "email", toL "mail",
      toL "mailbox", toL "emailid"]))
    address := some (findField row [toL "address", toL "location",
      toL "street", toL "city", toL "addr", toL "loc"])
    website := some (findField row [toL "website", toL "url", toL "site",
      toL "web", toL "www"])
    notes := some (
      let n := findField row [toL "notes", toL "comments", toL "desc",
        toL "info", toL "remarks"]
      if n = [] then toL "Source: " ++ fileName else n)
    cardImageUrl := none
    isFavorite := false
    createdAt := now
    updatedAt := now }

/-!
## PDF/AI extraction path (src/components/AddCardModal.tsx,
handleParseDocument, PDF branch)
-/

/-- The PDF branch's contact construction: the model-returned partial
record is spread into the contact unchanged (no phone/email filtering);
only a truthy name admits the record. -/
def pdfDataToContact (d : OCR) (id now : JStr) : Option Contact :=
  if truthyOpt d.name then
    some { id := id, name := d.name.getD [], title := d.title,
           company := d.company, phone := d.phone, email := d.email,
           address := d.address, website := d.website, notes := d.notes,
           cardImageUrl := none, isFavorite := false,
           createdAt := now, updatedAt := now }
  else none

/-!
## Dashboard store operations (src/pages/DashboardPage.tsx)
-/

/-- The filter predicate of `filteredContacts`: case-insensitive substring
match of the search term against name, and against company/title/notes
when those are truthy. -/
def contactMatches (term : JStr) (c : Contact) : Bool :=
  strIncludes (lowerStr c.name) (lowerStr term)
  || (match c.company with
      | some co => (¬ co = []) && strIncludes (lowerStr co) (lowerStr term)
      | none => false)
  || (match c.title with
      | some ti => (¬ ti = []) && strIncludes (lowerStr ti) (lowerStr term)
      | none => false)
  || (match c.notes with
      | some no => (¬ no = []) && strIncludes (lowerStr no) (lowerStr term)
      | none => false)

/-- `filteredContacts`: the search over the contact collection. -/
def filteredContacts (contacts : List Contact) (term : JStr) : List Contact :=
  contacts.filter (contactMatches term)

/-- Wrap a CSV cell in double quotes. -/
def csvQuote (v : JStr) : JStr := '"' :: (v ++ ['"'])

/-- One exported CSV data row: all eight fields quoted, multi-valued
fields joined with `'; '`, absent fields as empty strings. -/
def contactCsvRow (c : Contact) : JStr :=
  joinSep (toL ",") [csvQuote c.name, csvQuote (c.title.getD []),
    csvQuote (c.company.getD []),
    csvQuote (joinSep (toL "; ") (c.phone.getD [])),
    csvQuote (joinSep (toL "; ") (c.email.getD [])),
    csvQuote (c.address.getD []), csvQuote (c.website.getD []),
    csvQuote (c.notes.getD [])]

/-- The header row `headers.join(",")` of handleExportContacts. -/
def csvHeaderLine : JStr := toL "Name,Title,Company,Phone,Email,Address,Website,Notes"

/-- handleExportContacts: header plus one row per contact, joined with
newlines (the empty-collection alert path is not part of the content). -/
def handleExportContacts (contacts : List Contact) : JStr :=
  joinSep (toL "\n") (csvHeaderLine :: contacts.map contactCsvRow)

/-- handleDeleteContact: keep every contact whose id differs. -/
def handleDeleteContact (contacts : List Contact) (id : JStr) : List Contact :=
  contacts.filter (fun c => ¬ c.id = id)

/-- handleGenerateAvatarAction: look the contact up by id, run
autoGenerateAvatar on it (passed as an `AvatarInput`), and on a truthy
result patch `cardImageUrl`/`updatedAt` of every contact with that id. -/
def handleGenerateAvatarAction (contacts : List Contact)
    (contactId now : JStr) : List Contact :=
  match contacts.find? (fun c => c.id = contactId) with
  | none => contacts
  | some contact =>
    match autoGenerateAvatarPersonas (contactAsAvatarInput contact) with
    | some url =>
      if ¬ url = [] then
        contacts.map (fun c =>
          if c.id = contactId then
            { c with cardImageUrl := some url, updatedAt := now }
          else c)
      else contacts
    | none => contacts

/-!
## Research export filename (src/utils/exportResearch.ts, sanitizeFilename)
-/

/-- The character class `[<>:"/\\|?*\x00-\x1F]` removed first. -/
def invalidFileChar (c : Char) : Bool :=
  c = '<' ∨ c = '>' ∨ c = ':' ∨ c = '"' ∨ c = '/' ∨ c = '\\'
    ∨ c = '|' ∨ c = '?' ∨ c = '*' ∨ c.toNat ≤ 31

/-- The character class `[\w\-]` kept by the third replace: letters
(codes 65-90 and 97-122), digits (48-57), underscore and hyphen. -/
def wordOrHyphen (c : Char) : Bool :=
  (65 ≤ c.toNat ∧ c.toNat ≤ 90) ∨ (97 ≤ c.toNat ∧ c.toNat ≤ 122)
    ∨ (48 ≤ c.toNat ∧ c.toNat ≤ 57) ∨ c = '_' ∨ c = '-'

/-- `replace(/\s+/g, '_')`: each maximal whitespace run becomes one
underscore. -/
def replaceWsRuns : JStr → JStr
  | [] => []
  | [c] => if isJsWs c then ['_'] else [c]
  | c :: d :: cs =>
    if isJsWs c then
      (if isJsWs d then replaceWsRuns (d :: cs) else '_' :: replaceWsRuns (d :: cs))
    else c :: replaceWsRuns (d :: cs)

/-- sanitizeFilename: fallback for blank titles, then strip invalid
characters, underscore whitespace runs, keep word characters and hyphens,
lower-case, truncate to 50, and fall back again if nothing remains. -/
def sanitizeFilename (title : JStr) : JStr :=
  if title = [] ∨ jsTrim title = [] then toL "research_paper"
  else
    let s1 := (jsTrim title).filter (fun c => ¬ invalidFileChar c)
    let s2 := replaceWsRuns s1
    let s3 := s2.filter wordOrHyphen
    let s4 := (lowerStr s3).take 50
    if s4 = [] then toL "research_paper" else s4

/-!
## Supporting facts
-/

theorem char_toNat_ofNat_valid (n : Nat) (h : n < 55296) :
    (Char.ofNat n).toNat = n := by
  unfold Char.ofNat
  have hv : n.isValidChar := Or.inl (by omega)
  rw [dif_pos hv]
  simp [Char.toNat, Char.ofNatAux, UInt32.toNat, UInt32.ofNat']

theorem natAbs_tmod_lt (a : Int) (n : Nat) (h : 0 < n) :
    (Int.tmod a (n : Int)).natAbs < n := by
  cases a with
  | ofNat m =>
    show (Int.tmod (Int.ofNat m) (Int.ofNat n)).natAbs < n
    simpa [Int.tmod] using Nat.mod_lt m h
  | negSucc m =>
    show (Int.tmod (Int.negSucc m) (Int.ofNat n)).natAbs < n
    simpa [Int.tmod] using Nat.mod_lt (m + 1) h

/-!
## Claim C5
-/

/-- C5: for every seed string, generateColorFromString is deterministic
(it is a pure function of the seed) and the hue, saturation and lightness
it computes lie in [0,360), [65,85) and [50,65) respectively. -/
theorem claim_C5_colorFromString_bounds : ∀ s : JStr,
    generateColorFromString s = generateColorFromString s ∧
    hueOf s < 360 ∧
    65 ≤ satOf s ∧ satOf s < 85 ∧
    50 ≤ lightOf s ∧ lightOf s < 65 := by
  intro s
  refine ⟨rfl, ?_, ?_, ?_, ?_, ?_⟩
  · exact natAbs_tmod_lt (strHash s) 360 (by norm_num)
  · exact Nat.le_add_right 65 _
  · have h := Nat.mod_lt ((strHash s).natAbs) (y := 20) (by norm_num)
    unfold satOf
    omega
  · exact Nat.le_add_right 50 _
  · have h := Nat.mod_lt ((Int.fdiv (jsToInt32 (strHash s)) 256).natAbs)
      (y := 15) (by norm_num)
    unfold lightOf
    omega

/-!
## Claim C10
-/

/-- The characters allowed in a sanitized filename: lower-case letters
(codes 97-122), digits (48-57), underscore and hyphen. -/
def sanitizedChar (c : Char) : Prop :=
  (97 ≤ c.toNat ∧ c.toNat ≤ 122) ∨ (48 ≤ c.toNat ∧ c.toNat ≤ 57)
    ∨ c = '_' ∨ c = '-'

instance (c : Char) : Decidable (sanitizedChar c) := by
  unfold sanitizedChar
  infer_instance

theorem toLower_wordOrHyphen (c : Char) (h : wordOrHyphen c = true) :
    sanitizedChar c.toLower := by
  unfold wordOrHyphen at h
  simp only [decide_eq_true_eq, Bool.or_eq_true] at h
  unfold Char.toLower sanitizedChar
  rcases h with h | h | h | h | h
  · rw [if_pos (by omega)]
    have := char_toNat_ofNat_valid (c.toNat + 32) (by omega)
    left
    omega
  · rw [if_neg (by omega)]
    left
    exact h
  · rw [if_neg (by omega)]
    right; left
    exact h
  · subst h
    exact Or.inr (Or.inr (Or.inl (by decide)))
  · subst h
    exact Or.inr (Or.inr (Or.inr (by decide)))

/-- C10: for every title, sanitizeFilename returns a non-empty string of at
most 50 characters drawn from lower-case letters, digits, underscore and
hyphen, falling back to `research_paper` when nothing remains. -/
theorem claim_C10_sanitizeFilename : ∀ title : JStr,
    ¬ sanitizeFilename title = [] ∧
    (sanitizeFilename title).length ≤ 50 ∧
    ∀ c ∈ sanitizeFilename title, sanitizedChar c := by
  intro title
  unfold sanitizeFilename
  by_cases h1 : title = [] ∨ jsTrim title = []
  · rw [if_pos h1]
    exact ⟨by decide, by decide, by decide⟩
  · rw [if_neg h1]
    simp only []
    by_cases h2 : (lowerStr (((replaceWsRuns ((jsTrim title).filter
        (fun c => ¬ invalidFileChar c)))).filter wordOrHyphen)).take 50 = []
    · rw [if_pos h2]
      exact ⟨by decide, by decide, by decide⟩
    · rw [if_neg h2]
      refine ⟨h2, ?_, ?_⟩
      · rw [List.length_take]
        exact Nat.min_le_left 50 _
      · intro c hc
        have hc2 := List.mem_of_mem_take hc
        unfold lowerStr at hc2
        rcases List.mem_map.mp hc2 with ⟨d, hd, hcd⟩
        rcases List.mem_filter.mp hd with ⟨_, hdw⟩
        subst hcd
        exact toLower_wordOrHyphen d hdw

/-!
## Claim C2
-/

theorem filter_nonWs_dropWhileWs (s : JStr) :
    (s.dropWhile isJsWs).filter (fun c => ¬ isJsWs c) =
      s.filter (fun c => ¬ isJsWs c) := by
  conv_rhs => rw [← List.takeWhile_append_dropWhile isJsWs s]
  rw [List.filter_append]
  have h : (s.takeWhile isJsWs).filter (fun c => ¬ isJsWs c) = [] := by
    apply List.filter_eq_nil_iff.mpr
    intro x hx
    have := List.mem_takeWhile_imp hx
    simp_all
  rw [h, List.nil_append]

theorem filter_nonWs_jsTrim (s : JStr) :
    (jsTrim s).filter (fun c => ¬ isJsWs c) = s.filter (fun c => ¬ isJsWs c) := by
  unfold jsTrim
  rw [List.filter_reverse, filter_nonWs_dropWhileWs, List.filter_reverse,
    List.reverse_reverse, filter_nonWs_dropWhileWs]

theorem flatten_filter_ne_nil (l : List JStr) :
    (l.filter (fun t => ¬ t = [])).flatten = l.flatten := by
  induction l with
  | nil => rfl
  | cons x xs ih =>
    rw [List.filter_cons]
    by_cases hx : x = []
    · rw [if_neg (by simp [hx]), ih, hx]
      rfl
    · rw [if_pos (by simp [hx]), List.flatten_cons, List.flatten_cons, ih]

theorem tokensWs_flatten (s : JStr) :
    (tokensWs s).flatten = s.filter (fun c => ¬ isJsWs c) := by
  unfold tokensWs
  rw [flatten_filter_ne_nil]
  exact jsSplit_flatten_filter isJsWs s

theorem tokensWs_tok_ne_nil (s : JStr) : ∀ tk ∈ tokensWs s, ¬ tk = [] := by
  intro tk h
  have := (List.mem_filter.mp h).2
  simpa using this

theorem jsTrim_ne_nil_has_nonWs (s : JStr) (h : ¬ jsTrim s = []) :
    ¬ (jsTrim s).filter (fun c => ¬ isJsWs c) = [] := by
  intro hf
  unfold jsTrim at h hf
  set X := (s.dropWhile isJsWs).reverse with hX
  have h1 : X.dropWhile isJsWs ≠ [] := by
    intro h2
    apply h
    rw [h2]
    rfl
  have h2 := List.head_dropWhile_not isJsWs X h1
  have h3 : (X.dropWhile isJsWs).head h1 ∈ (X.dropWhile isJsWs).reverse := by
    rw [List.mem_reverse]
    exact List.head_mem h1
  have h4 : (X.dropWhile isJsWs).head h1 ∈
      ((X.dropWhile isJsWs).reverse).filter (fun c => ¬ isJsWs c) :=
    List.mem_filter.mpr ⟨h3, by simpa using h2⟩
  rw [hf] at h4
  simp at h4

theorem tokensWs_trim_ne_nil (s : JStr) (h : ¬ jsTrim s = []) :
    ¬ tokensWs (jsTrim s) = [] := by
  intro h0
  have hfl := tokensWs_flatten (jsTrim s)
  rw [h0] at hfl
  exact jsTrim_ne_nil_has_nonWs s h hfl.symm

/-- The initials selection the spec describes, with the corrected
short-name behaviour: tokenise the name on whitespace runs; a single token
contributes its first two characters, several tokens the first characters
of the first and the last; the empty name maps to the fixed placeholder
and a whitespace-only name selects nothing. -/
def specInitials (name : JStr) : JStr :=
  if name = [] then toL "??"
  else
    match tokensWs name with
    | [] => []
    | [tk] => upperStr (tk.take 2)
    | tk :: rest => upperStr [tk.headD '?', (rest.getLastD []).headD '?']

theorem getInitials_eq_specInitials (name : JStr) :
    getInitials name = specInitials name := by
  unfold getInitials specInitials
  by_cases h0 : name = []
  · rw [if_pos h0, if_pos h0]
  · rw [if_neg h0, if_neg h0]
    by_cases ht : jsTrim name = []
    · have hp : jsSplitWsRuns (jsTrim name) = [[]] := by
        rw [ht]
        rfl
      have htok : tokensWs name = [] := by
        rw [← tokensWs_jsTrim, ht]
        rfl
      rw [hp, htok]
      simp [upperStr]
    · have hts : jsSplitWsRuns (jsTrim name) = tokensWs name := by
        unfold jsSplitWsRuns
        rw [if_neg ht, tokensWs_jsTrim]
      have hne := tokensWs_trim_ne_nil name ht
      rw [tokensWs_jsTrim] at hne
      rw [hts]
      cases htoks : tokensWs name with
      | nil => exact absurd htoks hne
      | cons tk rest =>
        cases rest with
        | nil => simp
        | cons tk2 rest2 =>
          simp only [List.length_cons]
          rw [if_neg (by omega)]
          show upperStr [((tk :: tk2 :: rest2).headD []).headD '?',
              ((tk :: tk2 :: rest2).getLastD []).headD '?'] =
            upperStr [tk.headD '?', ((tk2 :: rest2).getLastD []).headD '?']
          have e1 : (tk :: tk2 :: rest2).getLastD ([] : JStr) =
              rest2.getLastD tk2 := by
            rw [List.getLastD_cons, List.getLastD_cons]
          have e2 : (tk2 :: rest2).getLastD ([] : JStr) =
              rest2.getLastD tk2 := by
            rw [List.getLastD_cons]
          rw [e1, e2]
          rfl

theorem getInitials_length (name : JStr) (h : ¬ name = []) :
    (getInitials name).length =
      min 2 (name.filter (fun c => ¬ isJsWs c)).length := by
  rw [getInitials_eq_specInitials]
  unfold specInitials
  rw [if_neg h]
  have hflat := tokensWs_flatten name
  cases htoks : tokensWs name with
  | nil =>
    rw [htoks] at hflat
    rw [← hflat]
    simp
  | cons tk rest =>
    rw [htoks] at hflat
    cases rest with
    | nil =>
      simp only [List.flatten_cons, List.flatten_nil, List.append_nil] at hflat
      rw [← hflat]
      simp [upperStr, List.length_take]
    | cons tk2 rest2 =>
      have h1 : ¬ tk = [] :=
        tokensWs_tok_ne_nil name tk (htoks ▸ List.mem_cons_self _ _)
      have h2 : ¬ tk2 = [] :=
        tokensWs_tok_ne_nil name tk2
          (htoks ▸ List.mem_cons_of_mem _ (List.mem_cons_self _ _))
      have hl1 : 0 < tk.length := List.length_pos.mpr h1
      have hl2 : 0 < tk2.length := List.length_pos.mpr h2
      have hge : 2 ≤ (name.filter (fun c => ¬ isJsWs c)).length := by
        rw [← hflat]
        simp only [List.flatten_cons, List.length_append]
        omega
      simp only [upperStr, List.length_map, List.length_cons,
        List.length_nil]
      omega

/-- C2 refuted as stated: for the single-character name `a` the function
returns the single character `A`, not two characters. -/
theorem claim_C2_counterexample : ¬ (getInitials (toL "a")).length = 2 := by
  decide

/-- C2 (amended): getInitials is a pure function of the name; the empty
name yields the fixed placeholder `??`; every other name yields the
uppercased selection the spec describes (first two characters of a single
whitespace-token, first characters of the first and last tokens
otherwise), whose length is the minimum of 2 and the number of
non-whitespace characters of the name — so exactly two characters iff the
name has at least two non-whitespace characters, one character for a
single-character name, and the empty string for a whitespace-only name. -/
theorem claim_C2_initials (name : JStr) :
    getInitials name = getInitials name ∧
    getInitials name = specInitials name ∧
    (name = [] → getInitials name = toL "??") ∧
    (¬ name = [] →
      (getInitials name).length =
        min 2 (name.filter (fun c => ¬ isJsWs c)).length) := by
  refine ⟨rfl, getInitials_eq_specInitials name, ?_, getInitials_length name⟩
  intro h
  rw [h]
  rfl

/-- Witness for C2 at the concrete name `Bob Lee`. -/
theorem claim_C2_witness :
    getInitials (toL "Bob Lee") = specInitials (toL "Bob Lee") ∧
    (getInitials (toL "Bob Lee")).length =
      min 2 ((toL "Bob Lee").filter (fun c => ¬ isJsWs c)).length := by
  refine ⟨(claim_C2_initials (toL "Bob Lee")).2.1, ?_⟩
  exact (claim_C2_initials (toL "Bob Lee")).2.2.2 (by decide)

/-!
## Claim C8
-/

/-- C8: with pairwise-distinct ids and the target id present, deletion
splits the collection around exactly the matching record: the result is
the concatenation of the untouched record sequences before and after it,
with every record and their order preserved. -/
theorem claim_C8_delete (contacts : List Contact) (id : JStr)
    (hn : (contacts.map (fun c => c.id)).Nodup)
    (hmem : ∃ c ∈ contacts, c.id = id) :
    ∃ pre x post, contacts = pre ++ x :: post ∧ x.id = id ∧
      handleDeleteContact contacts id = pre ++ post := by
  induction contacts with
  | nil =>
    rcases hmem with ⟨c, hc, _⟩
    simp at hc
  | cons c cs ih =>
    rw [List.map_cons, List.nodup_cons] at hn
    by_cases hc : c.id = id
    · refine ⟨[], c, cs, rfl, hc, ?_⟩
      unfold handleDeleteContact
      rw [List.filter_cons, if_neg (by simp [hc])]
      simp only [List.nil_append]
      apply List.filter_eq_self.mpr
      intro y hy
      have : y.id ≠ c.id := by
        intro he
        exact hn.1 (he ▸ List.mem_map_of_mem (fun z => z.id) hy)
      simp [hc ▸ this]
    · have hmem2 : ∃ d ∈ cs, d.id = id := by
        rcases hmem with ⟨d, hd, hid⟩
        rcases List.mem_cons.mp hd with h1 | h1
        · exact absurd (h1 ▸ hid) hc
        · exact ⟨d, h1, hid⟩
      rcases ih hn.2 hmem2 with ⟨pre, x, post, he, hx, hf⟩
      refine ⟨c :: pre, x, post, by rw [he, List.cons_append], hx, ?_⟩
      unfold handleDeleteContact at hf ⊢
      rw [List.filter_cons, if_pos (by simp [hc]), hf, List.cons_append]

def sampleA : Contact := { id := toL "1", name := toL "Ann" }

def sampleB : Contact := { id := toL "2", name := toL "Bob" }

/-- Witness for C8 on a concrete two-record store. -/
theorem claim_C8_witness :
    ∃ pre x post, [sampleA, sampleB] = pre ++ x :: post ∧ x.id = toL "2" ∧
      handleDeleteContact [sampleA, sampleB] (toL "2") = pre ++ post :=
  claim_C8_delete [sampleA, sampleB] (toL "2") (by decide)
    ⟨sampleB, by decide, by decide⟩

/-!
## Claim C9
-/

theorem strIncludes_nil (s : JStr) : strIncludes s [] = true := by
  cases s <;> simp [strIncludes, startsW]

theorem strIncludes_nil_left (n : JStr) : strIncludes [] n = true ↔ n = [] := by
  cases n <;> simp [strIncludes, startsW]

/-- The search predicate as the spec words it: the term is a
case-insensitive substring of the name, or of the company, title or notes
when those fields are present. -/
def specSearchMatch (term : JStr) (c : Contact) : Prop :=
  strIncludes (lowerStr c.name) (lowerStr term) = true ∨
  (∃ co, c.company = some co ∧ strIncludes (lowerStr co) (lowerStr term) = true) ∨
  (∃ ti, c.title = some ti ∧ strIncludes (lowerStr ti) (lowerStr term) = true) ∨
  (∃ no, c.notes = some no ∧ strIncludes (lowerStr no) (lowerStr term) = true)

theorem contactMatches_iff (term : JStr) (c : Contact) :
    contactMatches term c = true ↔ specSearchMatch term c := by
  unfold contactMatches specSearchMatch
  constructor
  · intro h
    simp only [Bool.or_eq_true] at h
    rcases h with ((h | h) | h) | h
    · exact Or.inl h
    · right; left
      cases hco : c.company with
      | none => rw [hco] at h; simp at h
      | some co =>
        rw [hco] at h
        simp only [Bool.and_eq_true] at h
        exact ⟨co, rfl, h.2⟩
    · right; right; left
      cases hti : c.title with
      | none => rw [hti] at h; simp at h
      | some ti =>
        rw [hti] at h
        simp only [Bool.and_eq_true] at h
        exact ⟨ti, rfl, h.2⟩
    · right; right; right
      cases hno : c.notes with
      | none => rw [hno] at h; simp at h
      | some no =>
        rw [hno] at h
        simp only [Bool.and_eq_true] at h
        exact ⟨no, rfl, h.2⟩
  · intro h
    simp only [Bool.or_eq_true]
    rcases h with h | ⟨co, hco, h⟩ | ⟨ti, hti, h⟩ | ⟨no, hno, h⟩
    · exact Or.inl (Or.inl (Or.inl h))
    · by_cases hcoe : co = []
      · subst hcoe
        have ht : lowerStr term = [] := (strIncludes_nil_left _).mp h
        refine Or.inl (Or.inl (Or.inl ?_))
        rw [ht]
        exact strIncludes_nil _
      · refine Or.inl (Or.inl (Or.inr ?_))
        rw [hco]
        simp [hcoe, h]
    · by_cases htie : ti = []
      · subst htie
        have ht : lowerStr term = [] := (strIncludes_nil_left _).mp h
        refine Or.inl (Or.inl (Or.inl ?_))
        rw [ht]
        exact strIncludes_nil _
      · refine Or.inl (Or.inr ?_)
        rw [hti]
        simp [htie, h]
    · by_cases hnoe : no = []
      · subst hnoe
        have ht : lowerStr term = [] := (strIncludes_nil_left _).mp h
        refine Or.inl (Or.inl (Or.inl ?_))
        rw [ht]
        exact strIncludes_nil _
      · refine Or.inr ?_
        rw [hno]
        simp [hnoe, h]

/-- C9: searching with the empty term returns the collection unchanged,
and for every term a record is in the search result iff it is in the
collection and the term matches it in the spec's sense (case-insensitive
substring of name, or of company/title/notes when present); the search is
a pure filter and never mutates the collection. -/
theorem claim_C9_search :
    (∀ contacts : List Contact, filteredContacts contacts [] = contacts) ∧
    (∀ (contacts : List Contact) (term : JStr) (c : Contact),
      c ∈ filteredContacts contacts term ↔ c ∈ contacts ∧ specSearchMatch term c) := by
  constructor
  · intro contacts
    unfold filteredContacts
    apply List.filter_eq_self.mpr
    intro a _
    unfold contactMatches
    have h : lowerStr [] = [] := rfl
    rw [h, strIncludes_nil]
    simp
  · intro contacts term c
    unfold filteredContacts
    rw [List.mem_filter, contactMatches_iff]

def sampleC : Contact :=
  { id := toL "3", name := toL "Ann", company := some (toL "Acme") }

/-- Witness for C9: the term `cm` finds the record through its company. -/
theorem claim_C9_witness : sampleC ∈ filteredContacts [sampleC] (toL "cm") :=
  (claim_C9_search.2 [sampleC] (toL "cm") sampleC).mpr
    ⟨by decide, Or.inr (Or.inl ⟨toL "Acme", rfl, by decide⟩)⟩

/-!
## Claim C7
-/

/-- The frame relation of the avatar action: every field except
`cardImageUrl` and `updatedAt` agrees, and a record whose id differs from
the target id is completely unchanged. -/
def onlyAvatarPatched (cid : JStr) (a b : Contact) : Prop :=
  b.id = a.id ∧ b.name = a.name ∧ b.title = a.title ∧ b.company = a.company ∧
  b.phone = a.phone ∧ b.email = a.email ∧ b.address = a.address ∧
  b.website = a.website ∧ b.notes = a.notes ∧ b.isFavorite = a.isFavorite ∧
  b.createdAt = a.createdAt ∧ (¬ a.id = cid → b = a)

theorem onlyAvatarPatched_refl (cid : JStr) (l : List Contact) :
    List.Forall₂ (onlyAvatarPatched cid) l l :=
  List.forall₂_same.mpr (fun _ _ =>
    ⟨rfl, rfl, rfl, rfl, rfl, rfl, rfl, rfl, rfl, rfl, rfl, fun _ => rfl⟩)

theorem generateAvatarPersonas_ne_nil (name : JStr) :
    ¬ generateAvatarPersonas name 400 = [] := by
  unfold generateAvatarPersonas generateDiceBearAvatar
  intro h
  rw [List.append_eq_nil, List.append_eq_nil, List.append_eq_nil,
    List.append_eq_nil, List.append_eq_nil] at h
  have := h.1.1.1.1.1
  simp [toL] at this

theorem hga_none (contacts : List Contact) (cid now : JStr)
    (hf : contacts.find? (fun c => c.id = cid) = none) :
    handleGenerateAvatarAction contacts cid now = contacts := by
  unfold handleGenerateAvatarAction
  rw [hf]

theorem hga_found (contacts : List Contact) (cid now : JStr)
    (contact : Contact)
    (hf : contacts.find? (fun c => c.id = cid) = some contact) :
    handleGenerateAvatarAction contacts cid now =
      (match autoGenerateAvatarPersonas (contactAsAvatarInput contact) with
       | some url =>
         if ¬ url = [] then
           contacts.map (fun c =>
             if c.id = cid then
               { c with cardImageUrl := some url, updatedAt := now }
             else c)
         else contacts
       | none => contacts) := by
  unfold handleGenerateAvatarAction
  rw [hf]

theorem hga_found_url (contacts : List Contact) (cid now : JStr)
    (contact : Contact) (url : JStr)
    (hf : contacts.find? (fun c => c.id = cid) = some contact)
    (ha : autoGenerateAvatarPersonas (contactAsAvatarInput contact) = some url) :
    handleGenerateAvatarAction contacts cid now =
      (if ¬ url = [] then
        contacts.map (fun c =>
          if c.id = cid then
            { c with cardImageUrl := some url, updatedAt := now }
          else c)
      else contacts) := by
  rw [hga_found contacts cid now contact hf, ha]

theorem hga_found_noUrl (contacts : List Contact) (cid now : JStr)
    (contact : Contact)
    (hf : contacts.find? (fun c => c.id = cid) = some contact)
    (ha : autoGenerateAvatarPersonas (contactAsAvatarInput contact) = none) :
    handleGenerateAvatarAction contacts cid now = contacts := by
  rw [hga_found contacts cid now contact hf, ha]

/-- C7 (amended): the avatar action is a per-id patch: the collection keeps
its length, every record keeps every field except possibly `cardImageUrl`
and `updatedAt`, records with a different id are untouched — and when a
record with the target id and a non-empty name is found, the patch is
applied unconditionally, replacing `cardImageUrl` with the generated
avatar URL even when a card image is already present (the absence check
reads an `imageUrl` property that contact records do not carry). -/
theorem claim_C7_avatar_frame (contacts : List Contact) (contactId now : JStr) :
    (handleGenerateAvatarAction contacts contactId now).length = contacts.length ∧
    List.Forall₂ (onlyAvatarPatched contactId) contacts
      (handleGenerateAvatarAction contacts contactId now) ∧
    (∀ contact, contacts.find? (fun c => c.id = contactId) = some contact →
      ¬ contact.name = [] →
      handleGenerateAvatarAction contacts contactId now =
        contacts.map (fun c =>
          if c.id = contactId then
            { c with cardImageUrl := some (generateAvatarPersonas contact.name 400),
                     updatedAt := now }
          else c)) := by
  have hfa : List.Forall₂ (onlyAvatarPatched contactId) contacts
      (handleGenerateAvatarAction contacts contactId now) := by
    cases hf : contacts.find? (fun c => c.id = contactId) with
    | none =>
      rw [hga_none contacts contactId now hf]
      exact onlyAvatarPatched_refl contactId contacts
    | some contact =>
      cases ha : autoGenerateAvatarPersonas (contactAsAvatarInput contact) with
      | none =>
        rw [hga_found_noUrl contacts contactId now contact hf ha]
        exact onlyAvatarPatched_refl contactId contacts
      | some url =>
        rw [hga_found_url contacts contactId now contact url hf ha]
        by_cases hu : ¬ url = []
        · rw [if_pos hu]
          apply List.forall₂_map_right_iff.mpr
          apply List.forall₂_same.mpr
          intro a _
          by_cases hid : a.id = contactId
          · rw [if_pos hid]
            exact ⟨rfl, rfl, rfl, rfl, rfl, rfl, rfl, rfl, rfl, rfl, rfl,
              fun h2 => absurd hid h2⟩
          · rw [if_neg hid]
            exact ⟨rfl, rfl, rfl, rfl, rfl, rfl, rfl, rfl, rfl, rfl, rfl,
              fun _ => rfl⟩
        · rw [if_neg hu]
          exact onlyAvatarPatched_refl contactId contacts
  refine ⟨(hfa.length_eq).symm, hfa, ?_⟩
  intro contact hfind hname
  have ha : autoGenerateAvatarPersonas (contactAsAvatarInput contact) =
      some (generateAvatarPersonas contact.name 400) := by
    unfold autoGenerateAvatarPersonas contactAsAvatarInput truthyOpt
    simp [hname]
  rw [hga_found_url contacts contactId now contact
      (generateAvatarPersonas contact.name 400) hfind ha,
    if_pos (generateAvatarPersonas_ne_nil contact.name)]

def samplePic : Contact :=
  { id := toL "7", name := toL "Al", cardImageUrl := some (toL "keep.png") }

/-- C7 refuted as stated: the record already has a card image, yet the
avatar action replaces it. -/
theorem claim_C7_counterexample :
    (handleGenerateAvatarAction [samplePic] (toL "7") (toL "T2")).map
      (fun c => c.cardImageUrl) ≠ [some (toL "keep.png")] := by
  decide

/-- Witness for C7 on a concrete two-record store, discharging the
found-record hypotheses. -/
theorem claim_C7_witness :
    handleGenerateAvatarAction [samplePic, sampleA] (toL "7") (toL "T2") =
      [samplePic, sampleA].map (fun c =>
        if c.id = toL "7" then
          { c with cardImageUrl := some (generateAvatarPersonas (toL "Al") 400),
                   updatedAt := toL "T2" }
        else c) := by
  have h := (claim_C7_avatar_frame [samplePic, sampleA] (toL "7")
    (toL "T2")).2.2 samplePic (by decide) (by decide)
  exact h

/-!
## Claim C6
-/

theorem not_nil_mem_filter_ne_nil (l : List JStr) :
    [] ∉ l.filter (fun t => ¬ t = []) := by
  intro h
  have := (List.mem_filter.mp h).2
  simp at this

/-- C6 (amended): a record produced by the review-form save or by the CSV
row mapper has no empty-string entries in its phone or email sequences;
the PDF/AI extraction path is excluded, since it spreads the model's
arrays into the record unfiltered. -/
theorem claim_C6_no_empty_entries :
    (∀ (form : CardForm) (initial : Option Contact) (previewUrl : Option JStr)
        (newId now : JStr) (c : Contact),
      handleSaveContact form initial previewUrl newId now = some c →
      [] ∉ c.phone.getD [] ∧ [] ∉ c.email.getD []) ∧
    (∀ (row : CsvRow) (fileName id now : JStr) (c : Contact),
      csvRowToContact row fileName id now = some c →
      [] ∉ c.phone.getD [] ∧ [] ∉ c.email.getD []) := by
  constructor
  · intro form initial previewUrl newId now c h
    unfold handleSaveContact at h
    by_cases hn : ¬ truthyOpt form.name = true
    · rw [if_pos hn] at h
      cases h
    · rw [if_neg hn] at h
      rcases Option.some.inj h with rfl
      constructor
      · by_cases hp : truthyOpt form.phone = true
        · simp only [hp, if_true]
          exact not_nil_mem_filter_ne_nil _
        · simp only [hp, if_false]
          simp
      · by_cases hp : truthyOpt form.email = true
        · simp only [hp, if_true]
          exact not_nil_mem_filter_ne_nil _
        · simp only [hp, if_false]
          simp
  · intro row fileName id now c h
    unfold csvRowToContact at h
    by_cases hn : (if findField row [toL "name", toL "fullname",
        toL "displayname", toL "person", toL "contactperson",
        toL "entryname"] = [] then
          joinSep (toL " ") (([findField row [toL "given", toL "first",
            toL "fname"], findField row [toL "family", toL "last",
            toL "lname"]]).filter (fun x => ¬ x = []))
        else findField row [toL "name", toL "fullname", toL "displayname",
          toL "person", toL "contactperson", toL "entryname"]) = []
    · rw [if_pos hn] at h
      cases h
    · rw [if_neg hn] at h
      rcases Option.some.inj h with rfl
      exact ⟨not_nil_mem_filter_ne_nil _, not_nil_mem_filter_ne_nil _⟩

/-- The record the PDF/AI path produces from a model reply whose phone
array contains an empty string. -/
def pdfBadContact : Contact :=
  { id := toL "9", name := toL "Al", phone := some [[]],
    createdAt := toL "T", updatedAt := toL "T" }

/-- C6 refuted as stated: the PDF/AI path admits an empty phone entry. -/
theorem claim_C6_counterexample :
    pdfDataToContact { name := some (toL "Al"), phone := some [[]] }
        (toL "9") (toL "T") = some pdfBadContact ∧
      [] ∈ pdfBadContact.phone.getD [] := by
  constructor
  · decide
  · decide

/-- The contact the review-form save produces from a form whose phone and
email fields carry blank tokens. -/
def sampleFormContact : Contact :=
  { id := toL "id", name := toL "Zoe", phone := some [toL "1", toL "2"],
    email := some [toL "a@b"], createdAt := toL "T", updatedAt := toL "T" }

/-- Witness for C6 on a concrete form whose phone field is `1, ,2` and
email field is `a@b, `. -/
theorem claim_C6_witness :
    [] ∉ sampleFormContact.phone.getD [] ∧
    [] ∉ sampleFormContact.email.getD [] :=
  claim_C6_no_empty_entries.1
    { name := some (toL "Zoe"), phone := some (toL "1, ,2"),
      email := some (toL "a@b, ") }
    none none (toL "id") (toL "T") sampleFormContact (by decide)

/-!
## Claim C4
-/

theorem jsSplit_length_one (p : Char → Bool) :
    ∀ l : JStr, (jsSplit p l).length = 1 → ∀ c ∈ l, ¬ p c := by
  intro l
  induction l with
  | nil =>
    intro _ c hc
    simp at hc
  | cons c cs ih =>
    intro h x hx
    unfold jsSplit at h ih
    rw [List.splitOnP_cons] at h
    by_cases hc : p c
    · rw [if_pos hc] at h
      simp only [List.length_cons] at h
      have hne := List.splitOnP_ne_nil p cs
      have hlen : (List.splitOnP p cs).length = 0 := by omega
      exact absurd (List.length_eq_zero.mp hlen) hne
    · rw [if_neg hc, List.length_modifyHead] at h
      rcases List.mem_cons.mp hx with h1 | h2
      · exact h1 ▸ hc
      · exact ih h x h2

theorem jsSplit_singleton (p : Char → Bool) (l x : JStr)
    (h : jsSplit p l = [x]) : x = l := by
  have hsf := jsSplit_length_one p l (by rw [h]; rfl)
  have h2 := jsSplit_sepFree p l hsf
  rw [h2] at h
  exact (List.cons.inj h).1.symm

/-- The N/FN section as the spec describes it, with the corrected rule:
the name splits on the space character; with at least two parts the last
part is the family name and the space-join of the rest the given name; a
single-part name goes entirely into the given-name slot with an empty
family name. -/
def vcardSpecNameSection (name : JStr) : List JStr :=
  if name = [] then []
  else
    match jsSplit (fun c => c = ' ') name with
    | [] => []
    | [single] => [toL "N:;" ++ single ++ toL ";;;", toL "FN:" ++ name]
    | parts => [toL "N:" ++ parts.getLastD [] ++ toL ";"
        ++ joinSep (toL " ") parts.dropLast ++ toL ";;;", toL "FN:" ++ name]

/-- One TEL line for the first phone with TYPE=WORK and one TYPE=CELL line
per subsequent phone, as the spec describes. -/
def vcardSpecTelSection (phones : Option (List JStr)) : List JStr :=
  match phones with
  | none => []
  | some [] => []
  | some (first :: rest) =>
    (toL "TEL;TYPE=WORK:" ++ first) :: rest.map (fun q => toL "TEL;TYPE=CELL:" ++ q)

/-- A single optional line with a fixed leading tag and trailing suffix,
emitted only for a present, non-empty value. -/
def vcardSpecOpt (pfx : JStr) (o : Option JStr) (sfx : JStr) : List JStr :=
  match o with
  | some v => if v = [] then [] else [pfx ++ v ++ sfx]
  | none => []

/-- The full vCard 3.0 line layout the spec describes, amended: BEGIN and
VERSION first, the N/FN section, ORG, TITLE, the TEL section, one
EMAIL;TYPE=INTERNET line per address, URL, `ADR;TYPE=WORK:;;<address>;;;;`,
NOTE, no PHOTO line (the exporter's PHOTO guard reads an imageUrl property
the contact type does not carry), the REV timestamp, and END last. -/
def vcardSpecLines (c : Contact) (rev : JStr) : List JStr :=
  [toL "BEGIN:VCARD", toL "VERSION:3.0"]
  ++ vcardSpecNameSection c.name
  ++ vcardSpecOpt (toL "ORG:") c.company []
  ++ vcardSpecOpt (toL "TITLE:") c.title []
  ++ vcardSpecTelSection c.phone
  ++ (match c.email with
      | some es => es.map (fun e => toL "EMAIL;TYPE=INTERNET:" ++ e)
      | none => [])
  ++ vcardSpecOpt (toL "URL:") c.website []
  ++ vcardSpecOpt (toL "ADR;TYPE=WORK:;;") c.address (toL ";;;;")
  ++ vcardSpecOpt (toL "NOTE:") c.notes []
  ++ [toL "REV:" ++ rev, toL "END:VCARD"]

theorem vcardNameLines_eq_spec (name : JStr) :
    vcardNameLines name = vcardSpecNameSection name := by
  unfold vcardNameLines vcardSpecNameSection
  by_cases h0 : name = []
  · rw [if_pos h0, if_pos h0]
  · rw [if_neg h0, if_neg h0]
    cases hsp : jsSplit (fun c => c = ' ') name with
    | nil => exact absurd hsp (jsSplit_ne_nil _ name)
    | cons p1 rest =>
      cases rest with
      | nil =>
        have hx : p1 = name := jsSplit_singleton _ name p1 hsp
        subst hx
        simp [joinSep, toL]
      | cons p2 rest2 =>
        simp only [List.length_cons]
        rw [if_pos (by omega), if_pos (by omega)]

theorem vcardOptLine_eq_spec (pfx : JStr) (o : Option JStr) :
    vcardOptLine (fun v => pfx ++ v) o = vcardSpecOpt pfx o [] := by
  unfold vcardOptLine vcardSpecOpt
  cases o with
  | none => rfl
  | some v =>
    by_cases hv : v = [] <;> simp [hv]

theorem vcardAdrLine_eq_spec (o : Option JStr) :
    vcardOptLine (fun v => toL "ADR;TYPE=WORK:;;" ++ v ++ toL ";;;;") o =
      vcardSpecOpt (toL "ADR;TYPE=WORK:;;") o (toL ";;;;") := by
  unfold vcardOptLine vcardSpecOpt
  cases o with
  | none => rfl
  | some v =>
    by_cases hv : v = [] <;> simp [hv]

theorem vcardTelLines_eq_spec (phones : Option (List JStr)) :
    (match phones with
     | some ps => vcardTelLines ps
     | none => []) = vcardSpecTelSection phones := by
  cases phones with
  | none => rfl
  | some ps => cases ps <;> rfl

/-- C4 (amended): generateVCard emits exactly the spec's vCard 3.0 line
layout joined with CRLF terminators, with two corrections: the family-name
slot of `N` is filled only when the name has at least two space-separated
parts (a single-part name goes entirely into the given-name slot), and no
PHOTO line is ever emitted because the exporter's guard reads an
`imageUrl` property that the contact type does not declare. -/
theorem claim_C4_vcard_format (c : Contact) (rev : JStr) :
    generateVCard c rev = joinSep (toL "\r\n") (vcardSpecLines c rev) ∧
    generateVCardLines c rev = vcardSpecLines c rev := by
  have hl : generateVCardLines c rev = vcardSpecLines c rev := by
    unfold generateVCardLines vcardSpecLines
    rw [vcardNameLines_eq_spec, vcardOptLine_eq_spec, vcardOptLine_eq_spec,
      vcardOptLine_eq_spec, vcardOptLine_eq_spec, vcardAdrLine_eq_spec,
      vcardTelLines_eq_spec]
    simp
  exact ⟨by unfold generateVCard; rw [hl], hl⟩

/-- The N/FN section under the claim's original reading: whitespace
tokens, the last token as family name, the remainder as given name, for
any number of tokens. -/
def vcardOrigNameSection (name : JStr) : List JStr :=
  if name = [] then []
  else
    let toks := tokensWs name
    [toL "N:" ++ toks.getLastD [] ++ toL ";"
      ++ joinSep (toL " ") toks.dropLast ++ toL ";;;", toL "FN:" ++ name]

/-- The vCard line layout under the claim's original N/FN reading. -/
def vcardSpecLinesOrig (c : Contact) (rev : JStr) : List JStr :=
  [toL "BEGIN:VCARD", toL "VERSION:3.0"]
  ++ vcardOrigNameSection c.name
  ++ vcardSpecOpt (toL "ORG:") c.company []
  ++ vcardSpecOpt (toL "TITLE:") c.title []
  ++ vcardSpecTelSection c.phone
  ++ (match c.email with
      | some es => es.map (fun e => toL "EMAIL;TYPE=INTERNET:" ++ e)
      | none => [])
  ++ vcardSpecOpt (toL "URL:") c.website []
  ++ vcardSpecOpt (toL "ADR;TYPE=WORK:;;") c.address (toL ";;;;")
  ++ vcardSpecOpt (toL "NOTE:") c.notes []
  ++ [toL "REV:" ++ rev, toL "END:VCARD"]

def sampleJane : Contact := { id := toL "1", name := toL "Jane" }

/-- C4 refuted as stated: for the single-token name `Jane` the exporter
writes `N:;Jane;;;` (given-name slot), not the `N:Jane;;;;` the claim's
last-token-as-family rule requires. -/
theorem claim_C4_counterexample :
    generateVCardLines sampleJane (toL "R") ≠
      vcardSpecLinesOrig sampleJane (toL "R") := by
  decide

/-!
## Claim C1

The round trip parses the exporter's lines group by group: the fold of
the parser's line handler over each emitted group is computed as an
explicit effect on the accumulated partial record.
-/

/-- A string free of carriage returns and line feeds; such strings embed
into vCard lines without disturbing the line structure. -/
def noCRLF (s : JStr) : Prop := ¬ '\r' ∈ s ∧ ¬ '\n' ∈ s

instance (s : JStr) : Decidable (noCRLF s) := by
  unfold noCRLF
  infer_instance

theorem splitLines_joinCRLF (lines : List JStr) (hne : lines ≠ [])
    (h : ∀ l ∈ lines, noCRLF l) :
    splitLinesRN (joinSep (toL "\r\n") lines) = lines := by
  induction lines with
  | nil => exact absurd rfl hne
  | cons x xs ih =>
    cases xs with
    | nil =>
      have hx := h x (List.mem_cons_self x [])
      unfold splitLinesRN
      rw [show joinSep (toL "\r\n") [x] = x from rfl]
      rw [jsSplit_sepFree _ x (fun c hc => by
        intro hcn
        exact hx.2 ((by simpa using hcn : c = '\n') ▸ hc))]
      rfl
    | cons y ys =>
      have hx := h x (List.mem_cons_self x (y :: ys))
      have hrest : ∀ l ∈ y :: ys, noCRLF l :=
        fun l hl => h l (List.mem_cons_of_mem x hl)
      unfold splitLinesRN at ih ⊢
      have hjoin : joinSep (toL "\r\n") (x :: y :: ys) =
          (x ++ ['\r']) ++ '\n' :: joinSep (toL "\r\n") (y :: ys) := by
        rw [joinSep]
        simp [toL]
      rw [hjoin, jsSplit_append_sep _ (x ++ ['\r']) _ '\n'
        (fun c hc => by
          intro hcn
          rcases List.mem_append.mp hc with h1 | h1
          · exact hx.2 ((by simpa using hcn : c = '\n') ▸ h1)
          · simp at h1
            rw [h1] at hcn
            simp at hcn)
        (by simp)]
      cases hs : jsSplit (fun c => c = '\n') (joinSep (toL "\r\n") (y :: ys)) with
      | nil => exact absurd hs (jsSplit_ne_nil _ _)
      | cons h2 t2 =>
        show stripCR1 (x ++ ['\r']) :: stripCRButLast (h2 :: t2) = x :: y :: ys
        have hstrip : stripCR1 (x ++ ['\r']) = x := by
          unfold stripCR1
          rw [List.getLast?_concat, if_pos rfl, List.dropLast_concat]
        rw [hstrip]
        have := ih (by simp) hrest
        rw [hs] at this
        rw [this]

/-- Effect of the N/FN group: the trimmed name is recorded. -/
def effName (name : JStr) (r : OCR) : OCR := { r with name := some name }

/-- Effect of the ORG line on the partial record. -/
def effOrg (o : Option JStr) (r : OCR) : OCR :=
  match o with
  | none => r
  | some v => { r with company := some v }

/-- Effect of the TITLE line on the partial record. -/
def effTitle (o : Option JStr) (r : OCR) : OCR :=
  match o with
  | none => r
  | some v => { r with title := some v }

/-- Effect of the TEL group on the partial record (starting from a record
with no phones yet). -/
def effTel (o : Option (List JStr)) (r : OCR) : OCR :=
  match o with
  | none => r
  | some [] => r
  | some ps => { r with phone := some ps }

/-- Effect of the EMAIL group on the partial record (starting from a
record with no emails yet). -/
def effEmail (o : Option (List JStr)) (r : OCR) : OCR :=
  match o with
  | none => r
  | some [] => r
  | some es => { r with email := some es }

/-- Effect of the URL line on the partial record. -/
def effUrl (o : Option JStr) (r : OCR) : OCR :=
  match o with
  | none => r
  | some v => if v = [] then r else { r with website := some (jsTrim v) }

/-- Effect of the NOTE line on the partial record. -/
def effNote (o : Option JStr) (r : OCR) : OCR :=
  match o with
  | none => r
  | some v => if v = [] then r else { r with notes := some (jsTrim v) }

theorem effName_company (n : JStr) (r : OCR) : (effName n r).company = r.company := rfl

theorem effName_title (n : JStr) (r : OCR) : (effName n r).title = r.title := rfl

theorem effName_phone (n : JStr) (r : OCR) : (effName n r).phone = r.phone := rfl

theorem effName_email (n : JStr) (r : OCR) : (effName n r).email = r.email := rfl

theorem effOrg_name (o : Option JStr) (r : OCR) : (effOrg o r).name = r.name := by
  cases o <;> rfl

theorem effOrg_title (o : Option JStr) (r : OCR) : (effOrg o r).title = r.title := by
  cases o <;> rfl

theorem effOrg_phone (o : Option JStr) (r : OCR) : (effOrg o r).phone = r.phone := by
  cases o <;> rfl

theorem effOrg_email (o : Option JStr) (r : OCR) : (effOrg o r).email = r.email := by
  cases o <;> rfl

theorem effTitle_name (o : Option JStr) (r : OCR) : (effTitle o r).name = r.name := by
  cases o <;> rfl

theorem effTitle_company (o : Option JStr) (r : OCR) : (effTitle o r).company = r.company := by
  cases o <;> rfl

theorem effTitle_phone (o : Option JStr) (r : OCR) : (effTitle o r).phone = r.phone := by
  cases o <;> rfl

theorem effTitle_email (o : Option JStr) (r : OCR) : (effTitle o r).email = r.email := by
  cases o <;> rfl

theorem effTel_name (o : Option (List JStr)) (r : OCR) : (effTel o r).name = r.name := by
  cases o with
  | none => rfl
  | some ps => cases ps <;> rfl

theorem effTel_company (o : Option (List JStr)) (r : OCR) : (effTel o r).company = r.company := by
  cases o with
  | none => rfl
  | some ps => cases ps <;> rfl

theorem effTel_title (o : Option (List JStr)) (r : OCR) : (effTel o r).title = r.title := by
  cases o with
  | none => rfl
  | some ps => cases ps <;> rfl

theorem effTel_email (o : Option (List JStr)) (r : OCR) : (effTel o r).email = r.email := by
  cases o with
  | none => rfl
  | some ps => cases ps <;> rfl

theorem effEmail_name (o : Option (List JStr)) (r : OCR) : (effEmail o r).name = r.name := by
  cases o with
  | none => rfl
  | some es => cases es <;> rfl

theorem effEmail_company (o : Option (List JStr)) (r : OCR) : (effEmail o r).company = r.company := by
  cases o with
  | none => rfl
  | some es => cases es <;> rfl

theorem effEmail_title (o : Option (List JStr)) (r : OCR) : (effEmail o r).title = r.title := by
  cases o with
  | none => rfl
  | some es => cases es <;> rfl

theorem effEmail_phone (o : Option (List JStr)) (r : OCR) : (effEmail o r).phone = r.phone := by
  cases o with
  | none => rfl
  | some es => cases es <;> rfl

theorem effUrl_name (o : Option JStr) (r : OCR) : (effUrl o r).name = r.name := by
  cases o with
  | none => rfl
  | some v =>
    by_cases hv : v = [] <;> simp [effUrl, hv]

theorem effUrl_company (o : Option JStr) (r : OCR) : (effUrl o r).company = r.company := by
  cases o with
  | none => rfl
  | some v =>
    by_cases hv : v = [] <;> simp [effUrl, hv]

theorem effUrl_title (o : Option JStr) (r : OCR) : (effUrl o r).title = r.title := by
  cases o with
  | none => rfl
  | some v =>
    by_cases hv : v = [] <;> simp [effUrl, hv]

theorem effUrl_phone (o : Option JStr) (r : OCR) : (effUrl o r).phone = r.phone := by
  cases o with
  | none => rfl
  | some v =>
    by_cases hv : v = [] <;> simp [effUrl, hv]

theorem effUrl_email (o : Option JStr) (r : OCR) : (effUrl o r).email = r.email := by
  cases o with
  | none => rfl
  | some v =>
    by_cases hv : v = [] <;> simp [effUrl, hv]

theorem effNote_name (o : Option JStr) (r : OCR) : (effNote o r).name = r.name := by
  cases o with
  | none => rfl
  | some v =>
    by_cases hv : v = [] <;> simp [effNote, hv]

theorem effNote_company (o : Option JStr) (r : OCR) : (effNote o r).company = r.company := by
  cases o with
  | none => rfl
  | some v =>
    by_cases hv : v = [] <;> simp [effNote, hv]

theorem effNote_title (o : Option JStr) (r : OCR) : (effNote o r).title = r.title := by
  cases o with
  | none => rfl
  | some v =>
    by_cases hv : v = [] <;> simp [effNote, hv]

theorem effNote_phone (o : Option JStr) (r : OCR) : (effNote o r).phone = r.phone := by
  cases o with
  | none => rfl
  | some v =>
    by_cases hv : v = [] <;> simp [effNote, hv]

theorem effNote_email (o : Option JStr) (r : OCR) : (effNote o r).email = r.email := by
  cases o with
  | none => rfl
  | some v =>
    by_cases hv : v = [] <;> simp [effNote, hv]

theorem foldl_beginVersion (r : OCR) :
    ([toL "BEGIN:VCARD", toL "VERSION:3.0"]).foldl stepLine r = r := rfl

theorem foldl_nameLines (name : JStr) (h1 : ¬ name = [])
    (h2 : jsTrim name = name) (r : OCR) :
    (vcardNameLines name).foldl stepLine r = effName name r := by
  unfold vcardNameLines
  rw [if_neg h1]
  show { r with name := some (jsTrim name) } = effName name r
  rw [h2]
  rfl

theorem foldl_orgLine (o : Option JStr)
    (ho : ∀ v, o = some v → ¬ v = [] ∧ jsTrim v = v) (r : OCR) :
    (vcardOptLine (fun v => toL "ORG:" ++ v) o).foldl stepLine r = effOrg o r := by
  cases o with
  | none => rfl
  | some v =>
    rcases ho v rfl with ⟨hv, htr⟩
    show (if v = [] then ([] : List JStr)
        else [toL "ORG:" ++ v]).foldl stepLine r = effOrg (some v) r
    rw [if_neg hv]
    show { r with company := some (jsTrim v) } = effOrg (some v) r
    rw [htr]
    rfl

theorem foldl_titleLine (o : Option JStr)
    (ho : ∀ v, o = some v → ¬ v = [] ∧ jsTrim v = v) (r : OCR) :
    (vcardOptLine (fun v => toL "TITLE:" ++ v) o).foldl stepLine r = effTitle o r := by
  cases o with
  | none => rfl
  | some v =>
    rcases ho v rfl with ⟨hv, htr⟩
    show (if v = [] then ([] : List JStr)
        else [toL "TITLE:" ++ v]).foldl stepLine r = effTitle (some v) r
    rw [if_neg hv]
    show { r with title := some (jsTrim v) } = effTitle (some v) r
    rw [htr]
    rfl

theorem foldl_urlLine (o : Option JStr) (r : OCR) :
    (vcardOptLine (fun v => toL "URL:" ++ v) o).foldl stepLine r = effUrl o r := by
  cases o with
  | none => rfl
  | some v =>
    show (if v = [] then ([] : List JStr)
        else [toL "URL:" ++ v]).foldl stepLine r =
      (if v = [] then r else { r with website := some (jsTrim v) })
    by_cases hv : v = []
    · rw [if_pos hv, if_pos hv]
      rfl
    · rw [if_neg hv, if_neg hv]
      rfl

theorem foldl_noteLine (o : Option JStr) (r : OCR) :
    (vcardOptLine (fun v => toL "NOTE:" ++ v) o).foldl stepLine r = effNote o r := by
  cases o with
  | none => rfl
  | some v =>
    show (if v = [] then ([] : List JStr)
        else [toL "NOTE:" ++ v]).foldl stepLine r =
      (if v = [] then r else { r with notes := some (jsTrim v) })
    by_cases hv : v = []
    · rw [if_pos hv, if_pos hv]
      rfl
    · rw [if_neg hv, if_neg hv]
      rfl

theorem foldl_adrLine (o : Option JStr) (r : OCR) :
    (vcardOptLine (fun v => toL "ADR;TYPE=WORK:;;" ++ v ++ toL ";;;;") o).foldl
        stepLine r = r := by
  cases o with
  | none => rfl
  | some v =>
    show (if v = [] then ([] : List JStr)
        else [toL "ADR;TYPE=WORK:;;" ++ v ++ toL ";;;;"]).foldl stepLine r = r
    by_cases hv : v = []
    · rw [if_pos hv]
      rfl
    · rw [if_neg hv]
      rfl

theorem foldl_cellLines (rest : List JStr)
    (h : ∀ q ∈ rest, ¬ q = [] ∧ jsTrim q = q) :
    ∀ (r : OCR) (acc : List JStr), r.phone = some acc →
      (rest.map (fun q => toL "TEL;TYPE=CELL:" ++ q)).foldl stepLine r =
        { r with phone := some (acc ++ rest) } := by
  induction rest with
  | nil =>
    intro r acc hr
    show r = { r with phone := some (acc ++ []) }
    rw [List.append_nil, ← hr]
  | cons q rest2 ih =>
    intro r acc hr
    rcases h q (List.mem_cons_self q rest2) with ⟨hq, htr⟩
    have hstep : stepLine r (toL "TEL;TYPE=CELL:" ++ q) =
        { r with phone := some (acc ++ [q]) } := by
      show (if jsTrim q = [] then r
            else { r with phone := some (r.phone.getD [] ++ [jsTrim q]) }) =
        { r with phone := some (acc ++ [q]) }
      rw [htr, if_neg hq, hr]
      rfl
    show (rest2.map (fun q => toL "TEL;TYPE=CELL:" ++ q)).foldl stepLine
        (stepLine r (toL "TEL;TYPE=CELL:" ++ q)) = _
    rw [hstep,
      ih (fun x hx => h x (List.mem_cons_of_mem q hx)) _ (acc ++ [q]) rfl]
    simp

theorem foldl_telLines (o : Option (List JStr))
    (h : ∀ ps, o = some ps → ∀ q ∈ ps, ¬ q = [] ∧ jsTrim q = q)
    (r : OCR) (hr : r.phone = none) :
    (match o with
     | some ps => vcardTelLines ps
     | none => []).foldl stepLine r = effTel o r := by
  cases o with
  | none => rfl
  | some ps =>
    cases ps with
    | nil => rfl
    | cons p rest =>
      rcases h _ rfl p (List.mem_cons_self p rest) with ⟨hp, htp⟩
      have hstep : stepLine r (toL "TEL;TYPE=WORK:" ++ p) =
          { r with phone := some [p] } := by
        show (if jsTrim p = [] then r
              else { r with phone := some (r.phone.getD [] ++ [jsTrim p]) }) =
          { r with phone := some [p] }
        rw [htp, if_neg hp, hr]
        rfl
      show (rest.map (fun q => toL "TEL;TYPE=CELL:" ++ q)).foldl stepLine
          (stepLine r (toL "TEL;TYPE=WORK:" ++ p)) = effTel (some (p :: rest)) r
      rw [hstep,
        foldl_cellLines rest (fun q hq => h _ rfl q (List.mem_cons_of_mem p hq))
          _ [p] rfl]
      rfl

theorem foldl_emailAcc (es : List JStr)
    (h : ∀ e ∈ es, ¬ e = [] ∧ jsTrim e = e) :
    ∀ (r : OCR) (acc : List JStr), r.email = some acc →
      (es.map (fun e => toL "EMAIL;TYPE=INTERNET:" ++ e)).foldl stepLine r =
        { r with email := some (acc ++ es) } := by
  induction es with
  | nil =>
    intro r acc hr
    show r = { r with email := some (acc ++ []) }
    rw [List.append_nil, ← hr]
  | cons e rest2 ih =>
    intro r acc hr
    rcases h e (List.mem_cons_self e rest2) with ⟨he, htr⟩
    have hstep : stepLine r (toL "EMAIL;TYPE=INTERNET:" ++ e) =
        { r with email := some (acc ++ [e]) } := by
      show (if jsTrim e = [] then r
            else { r with email := some (r.email.getD [] ++ [jsTrim e]) }) =
        { r with email := some (acc ++ [e]) }
      rw [htr, if_neg he, hr]
      rfl
    show (rest2.map (fun e => toL "EMAIL;TYPE=INTERNET:" ++ e)).foldl stepLine
        (stepLine r (toL "EMAIL;TYPE=INTERNET:" ++ e)) = _
    rw [hstep,
      ih (fun x hx => h x (List.mem_cons_of_mem e hx)) _ (acc ++ [e]) rfl]
    simp

theorem foldl_emailLines (o : Option (List JStr))
    (h : ∀ es, o = some es → ∀ e ∈ es, ¬ e = [] ∧ jsTrim e = e)
    (r : OCR) (hr : r.email = none) :
    (match o with
     | some es => es.map (fun e => toL "EMAIL;TYPE=INTERNET:" ++ e)
     | none => []).foldl stepLine r = effEmail o r := by
  cases o with
  | none => rfl
  | some es =>
    cases es with
    | nil => rfl
    | cons e rest =>
      rcases h _ rfl e (List.mem_cons_self e rest) with ⟨he, hte⟩
      have hstep : stepLine r (toL "EMAIL;TYPE=INTERNET:" ++ e) =
          { r with email := some [e] } := by
        show (if jsTrim e = [] then r
              else { r with email := some (r.email.getD [] ++ [jsTrim e]) }) =
          { r with email := some [e] }
        rw [hte, if_neg he, hr]
        rfl
      show (rest.map (fun q => toL "EMAIL;TYPE=INTERNET:" ++ q)).foldl stepLine
          (stepLine r (toL "EMAIL;TYPE=INTERNET:" ++ e)) =
        effEmail (some (e :: rest)) r
      rw [hstep,
        foldl_emailAcc rest (fun q hq => h _ rfl q (List.mem_cons_of_mem e hq))
          _ [e] rfl]
      rfl

theorem foldl_revLine (rev : JStr) (r : OCR) :
    ([toL "REV:" ++ rev]).foldl stepLine r = r := rfl

theorem foldl_endLine (r : OCR) :
    ([toL "END:VCARD"]).foldl stepLine r = r := rfl

theorem noCRLF_append (a b : JStr) (ha : noCRLF a) (hb : noCRLF b) :
    noCRLF (a ++ b) := by
  constructor
  · intro h
    rcases List.mem_append.mp h with h1 | h1
    · exact ha.1 h1
    · exact hb.1 h1
  · intro h
    rcases List.mem_append.mp h with h1 | h1
    · exact ha.2 h1
    · exact hb.2 h1

theorem jsSplit_pieces_mem (p : Char → Bool) (l : JStr) :
    ∀ piece ∈ jsSplit p l, ∀ c ∈ piece, c ∈ l := by
  intro piece hp c hc
  have h1 : c ∈ (jsSplit p l).flatten := List.mem_flatten_of_mem hp hc
  rw [jsSplit_flatten_filter] at h1
  exact (List.mem_filter.mp h1).1

theorem mem_joinSep (sep : JStr) (ls : List JStr) (c : Char) :
    c ∈ joinSep sep ls → c ∈ sep ∨ ∃ x ∈ ls, c ∈ x := by
  induction ls with
  | nil =>
    intro h
    simp [joinSep] at h
  | cons x xs ih =>
    cases xs with
    | nil =>
      intro h
      rw [show joinSep sep [x] = x from rfl] at h
      exact Or.inr ⟨x, List.mem_cons_self x [], h⟩
    | cons y ys =>
      intro h
      rw [show joinSep sep (x :: y :: ys) =
        x ++ sep ++ joinSep sep (y :: ys) from rfl] at h
      rcases List.mem_append.mp h with h1 | h1
      · rcases List.mem_append.mp h1 with h2 | h2
        · exact Or.inr ⟨x, List.mem_cons_self _ _, h2⟩
        · exact Or.inl h2
      · rcases ih h1 with h2 | ⟨z, hz, hcz⟩
        · exact Or.inl h2
        · exact Or.inr ⟨z, List.mem_cons_of_mem x hz, hcz⟩

theorem mem_of_mem_dropLastJ {l : List JStr} {x : JStr}
    (h : x ∈ l.dropLast) : x ∈ l := by
  induction l with
  | nil => simp at h
  | cons a t ih =>
    cases t with
    | nil => simp at h
    | cons b t2 =>
      rw [List.dropLast_cons₂] at h
      rcases List.mem_cons.mp h with h1 | h1
      · exact h1 ▸ List.mem_cons_self a _
      · exact List.mem_cons_of_mem a (ih h1)

theorem getLastD_memJ : ∀ (l : List JStr) (d : JStr), l ≠ [] → l.getLastD d ∈ l := by
  intro l
  induction l with
  | nil =>
    intro d h
    exact absurd rfl h
  | cons a t ih =>
    intro d _
    cases t with
    | nil => simp [List.getLastD]
    | cons b t2 =>
      rw [List.getLastD_cons]
      exact List.mem_cons_of_mem a (ih a (by simp))

theorem noCRLF_of_mem_name (name piece : JStr) (hn : noCRLF name)
    (hp : piece ∈ jsSplit (fun c => c = ' ') name) : noCRLF piece := by
  constructor
  · intro h
    exact hn.1 (jsSplit_pieces_mem _ name piece hp '\r' h)
  · intro h
    exact hn.2 (jsSplit_pieces_mem _ name piece hp '\n' h)

theorem generateVCardLines_noCRLF (c : Contact) (rev : JStr)
    (hn : noCRLF c.name)
    (hco : ∀ v, c.company = some v → noCRLF v)
    (hti : ∀ v, c.title = some v → noCRLF v)
    (hph : ∀ ps, c.phone = some ps → ∀ q ∈ ps, noCRLF q)
    (hem : ∀ es, c.email = some es → ∀ e ∈ es, noCRLF e)
    (hwe : ∀ v, c.website = some v → noCRLF v)
    (had : ∀ v, c.address = some v → noCRLF v)
    (hno : ∀ v, c.notes = some v → noCRLF v)
    (hrev : noCRLF rev) :
    ∀ l ∈ generateVCardLines c rev, noCRLF l := by
  intro l hl
  unfold generateVCardLines at hl
  simp only [List.mem_append] at hl
  rcases hl with ((((((((((hl | hl) | hl) | hl) | hl) | hl) | hl) | hl) | hl)
    | hl) | hl)
  · rcases List.mem_cons.mp hl with h1 | h1
    · exact h1 ▸ (by decide)
    · rcases List.mem_cons.mp h1 with h2 | h2
      · exact h2 ▸ (by decide)
      · simp at h2
  · unfold vcardNameLines at hl
    by_cases hne : c.name = []
    · rw [if_pos hne] at hl
      simp at hl
    · rw [if_neg hne] at hl
      simp only [] at hl
      rcases List.mem_cons.mp hl with h1 | h1
      · subst h1
        apply noCRLF_append
        apply noCRLF_append
        apply noCRLF_append
        apply noCRLF_append
        · decide
        · by_cases hlen : 1 < (jsSplit (fun c => c = ' ') c.name).length
          · rw [if_pos hlen]
            exact noCRLF_of_mem_name c.name _ hn
              (getLastD_memJ _ [] (jsSplit_ne_nil _ c.name))
          · rw [if_neg hlen]
            decide
        · decide
        · by_cases hlen : 1 < (jsSplit (fun c => c = ' ') c.name).length
          · rw [if_pos hlen]
            constructor
            · intro h
              rcases mem_joinSep _ _ _ h with h2 | ⟨x, hx, hcx⟩
              · simp [toL] at h2
              · exact (noCRLF_of_mem_name c.name x hn
                  (mem_of_mem_dropLastJ hx)).1 hcx
            · intro h
              rcases mem_joinSep _ _ _ h with h2 | ⟨x, hx, hcx⟩
              · simp [toL] at h2
              · exact (noCRLF_of_mem_name c.name x hn
                  (mem_of_mem_dropLastJ hx)).2 hcx
          · rw [if_neg hlen]
            exact hn
        · decide
      · rcases List.mem_cons.mp h1 with h2 | h2
        · subst h2
          exact noCRLF_append _ _ (by decide) hn
        · simp at h2
  · cases hc : c.company with
    | none =>
      rw [hc] at hl
      simp [vcardOptLine] at hl
    | some v =>
      rw [hc] at hl
      rw [show vcardOptLine (fun v => toL "ORG:" ++ v) (some v) =
        (if v = [] then [] else [toL "ORG:" ++ v]) from rfl] at hl
      by_cases hv : v = []
      · rw [if_pos hv] at hl
        simp at hl
      · rw [if_neg hv] at hl
        rcases List.mem_cons.mp hl with h1 | h1
        · exact h1 ▸ noCRLF_append _ _ (by decide) (hco v hc)
        · simp at h1
  · cases hc : c.title with
    | none =>
      rw [hc] at hl
      simp [vcardOptLine] at hl
    | some v =>
      rw [hc] at hl
      rw [show vcardOptLine (fun v => toL "TITLE:" ++ v) (some v) =
        (if v = [] then [] else [toL "TITLE:" ++ v]) from rfl] at hl
      by_cases hv : v = []
      · rw [if_pos hv] at hl
        simp at hl
      · rw [if_neg hv] at hl
        rcases List.mem_cons.mp hl with h1 | h1
        · exact h1 ▸ noCRLF_append _ _ (by decide) (hti v hc)
        · simp at h1
  · cases hc : c.phone with
    | none =>
      rw [hc] at hl
      simp at hl
    | some ps =>
      rw [hc] at hl
      cases ps with
      | nil => simp [vcardTelLines] at hl
      | cons p rest =>
        unfold vcardTelLines at hl
        rcases List.mem_cons.mp hl with h1 | h1
        · exact h1 ▸ noCRLF_append _ _ (by decide)
            (hph _ hc p (List.mem_cons_self p rest))
        · rcases List.mem_map.mp h1 with ⟨q, hq, hlq⟩
          exact hlq ▸ noCRLF_append _ _ (by decide)
            (hph _ hc q (List.mem_cons_of_mem p hq))
  · cases hc : c.email with
    | none =>
      rw [hc] at hl
      simp at hl
    | some es =>
      rw [hc] at hl
      rcases List.mem_map.mp hl with ⟨e, he, hle⟩
      exact hle ▸ noCRLF_append _ _ (by decide) (hem _ hc e he)
  · cases hc : c.website with
    | none =>
      rw [hc] at hl
      simp [vcardOptLine] at hl
    | some v =>
      rw [hc] at hl
      rw [show vcardOptLine (fun v => toL "URL:" ++ v) (some v) =
        (if v = [] then [] else [toL "URL:" ++ v]) from rfl] at hl
      by_cases hv : v = []
      · rw [if_pos hv] at hl
        simp at hl
      · rw [if_neg hv] at hl
        rcases List.mem_cons.mp hl with h1 | h1
        · exact h1 ▸ noCRLF_append _ _ (by decide) (hwe v hc)
        · simp at h1
  · cases hc : c.address with
    | none =>
      rw [hc] at hl
      simp [vcardOptLine] at hl
    | some v =>
      rw [hc] at hl
      rw [show vcardOptLine
          (fun v => toL "ADR;TYPE=WORK:;;" ++ v ++ toL ";;;;") (some v) =
        (if v = [] then []
         else [toL "ADR;TYPE=WORK:;;" ++ v ++ toL ";;;;"]) from rfl] at hl
      by_cases hv : v = []
      · rw [if_pos hv] at hl
        simp at hl
      · rw [if_neg hv] at hl
        rcases List.mem_cons.mp hl with h1 | h1
        · exact h1 ▸ noCRLF_append _ _
            (noCRLF_append _ _ (by decide) (had v hc)) (by decide)
        · simp at h1
  · cases hc : c.notes with
    | none =>
      rw [hc] at hl
      simp [vcardOptLine] at hl
    | some v =>
      rw [hc] at hl
      rw [show vcardOptLine (fun v => toL "NOTE:" ++ v) (some v) =
        (if v = [] then [] else [toL "NOTE:" ++ v]) from rfl] at hl
      by_cases hv : v = []
      · rw [if_pos hv] at hl
        simp at hl
      · rw [if_neg hv] at hl
        rcases List.mem_cons.mp hl with h1 | h1
        · exact h1 ▸ noCRLF_append _ _ (by decide) (hno v hc)
        · simp at h1
  · rcases List.mem_cons.mp hl with h1 | h1
    · exact h1 ▸ noCRLF_append _ _ (by decide) hrev
    · simp at h1
  · rcases List.mem_cons.mp hl with h1 | h1
    · exact h1 ▸ (by decide)
    · simp at h1

theorem effOrg_company_out (o : Option JStr) (r : OCR) (hr : r.company = none) :
    (effOrg o r).company = o := by
  cases o with
  | none => rw [show effOrg none r = r from rfl, hr]
  | some v => rfl

theorem effTitle_title_out (o : Option JStr) (r : OCR) (hr : r.title = none) :
    (effTitle o r).title = o := by
  cases o with
  | none => rw [show effTitle none r = r from rfl, hr]
  | some v => rfl

theorem effTel_phone_getD (o : Option (List JStr)) (r : OCR)
    (hr : r.phone = none) :
    (effTel o r).phone.getD [] = o.getD [] := by
  cases o with
  | none => rw [show effTel none r = r from rfl, hr]
  | some ps =>
    cases ps with
    | nil =>
      show r.phone.getD [] = _
      rw [hr]
      rfl
    | cons p t => rfl

theorem effEmail_email_getD (o : Option (List JStr)) (r : OCR)
    (hr : r.email = none) :
    (effEmail o r).email.getD [] = o.getD [] := by
  cases o with
  | none => rw [show effEmail none r = r from rfl, hr]
  | some es =>
    cases es with
    | nil =>
      show r.email.getD [] = _
      rw [hr]
      rfl
    | cons e t => rfl

/-- C1 (amended): the export/parse round trip reproduces the name, the
company, the title and the phone and email sequences, for contacts whose
emitted fields embed into vCard lines unchanged: the name, company, title
and each phone/email entry are non-empty, equal their own trim, and are
free of CR/LF, and the remaining emitted fields and the REV timestamp are
free of CR/LF.  (The parser trims every value it extracts and drops empty
TEL/EMAIL values, so whitespace-padded or empty fields do not survive the
round trip; absent phone/email sequences are compared as empty.) -/
theorem claim_C1_vcard_roundtrip (c : Contact) (rev : JStr)
    (hname : ¬ c.name = []) (hntr : jsTrim c.name = c.name)
    (hncr : noCRLF c.name)
    (hco : ∀ v, c.company = some v → ¬ v = [] ∧ jsTrim v = v ∧ noCRLF v)
    (hti : ∀ v, c.title = some v → ¬ v = [] ∧ jsTrim v = v ∧ noCRLF v)
    (hph : ∀ ps, c.phone = some ps → ∀ q ∈ ps, ¬ q = [] ∧ jsTrim q = q ∧ noCRLF q)
    (hem : ∀ es, c.email = some es → ∀ e ∈ es, ¬ e = [] ∧ jsTrim e = e ∧ noCRLF e)
    (hwe : ∀ v, c.website = some v → noCRLF v)
    (had : ∀ v, c.address = some v → noCRLF v)
    (hno : ∀ v, c.notes = some v → noCRLF v)
    (hrev : noCRLF rev) :
    (parseVCard (generateVCard c rev)).name = some c.name ∧
    (parseVCard (generateVCard c rev)).company = c.company ∧
    (parseVCard (generateVCard c rev)).title = c.title ∧
    (parseVCard (generateVCard c rev)).phone.getD [] = c.phone.getD [] ∧
    (parseVCard (generateVCard c rev)).email.getD [] = c.email.getD [] := by
  have hsplit : splitLinesRN (generateVCard c rev) = generateVCardLines c rev := by
    unfold generateVCard
    apply splitLines_joinCRLF
    · exact List.cons_ne_nil _ _
    · exact generateVCardLines_noCRLF c rev hncr
        (fun v hv => (hco v hv).2.2) (fun v hv => (hti v hv).2.2)
        (fun ps hps q hq => (hph ps hps q hq).2.2)
        (fun es hes e he => (hem es hes e he).2.2)
        hwe had hno hrev
  have hstate_phone :
      (effTitle c.title (effOrg c.company (effName c.name ({} : OCR)))).phone
        = none := by
    rw [effTitle_phone, effOrg_phone, effName_phone]
  have hstate_email :
      (effTel c.phone (effTitle c.title (effOrg c.company
        (effName c.name ({} : OCR))))).email = none := by
    rw [effTel_email, effTitle_email, effOrg_email, effName_email]
  have hparse : parseVCard (generateVCard c rev) =
      effNote c.notes (effUrl c.website (effEmail c.email (effTel c.phone
        (effTitle c.title (effOrg c.company (effName c.name ({} : OCR))))))) := by
    unfold parseVCard
    rw [hsplit]
    unfold generateVCardLines
    simp only [List.foldl_append]
    rw [foldl_beginVersion, foldl_nameLines c.name hname hntr,
      foldl_orgLine c.company (fun v hv => ⟨(hco v hv).1, (hco v hv).2.1⟩),
      foldl_titleLine c.title (fun v hv => ⟨(hti v hv).1, (hti v hv).2.1⟩),
      foldl_telLines c.phone
        (fun ps hps q hq => ⟨(hph ps hps q hq).1, (hph ps hps q hq).2.1⟩)
        _ hstate_phone,
      foldl_emailLines c.email
        (fun es hes e he => ⟨(hem es hes e he).1, (hem es hes e he).2.1⟩)
        _ hstate_email,
      foldl_urlLine c.website, foldl_adrLine c.address,
      foldl_noteLine c.notes, foldl_revLine rev, foldl_endLine]
  refine ⟨?_, ?_, ?_, ?_, ?_⟩ <;> rw [hparse]
  · rw [effNote_name, effUrl_name, effEmail_name, effTel_name, effTitle_name,
      effOrg_name]
    rfl
  · rw [effNote_company, effUrl_company, effEmail_company, effTel_company,
      effTitle_company, effOrg_company_out _ _ (by rfl)]
  · rw [effNote_title, effUrl_title, effEmail_title, effTel_title,
      effTitle_title_out _ _ (by rw [effOrg_title]; rfl)]
  · rw [effNote_phone, effUrl_phone, effEmail_phone,
      effTel_phone_getD _ _ hstate_phone]
  · rw [effNote_email, effUrl_email, effEmail_email_getD _ _ hstate_email]

def sampleFull : Contact :=
  { id := toL "1", name := toL "Jane Doe", title := some (toL "CTO"),
    company := some (toL "Acme"),
    phone := some [toL "555-1234", toL "555-9"],
    email := some [toL "jane@acme.com"], address := some (toL "1 Main St"),
    website := some (toL "https://acme.com"), notes := some (toL "met at expo"),
    createdAt := toL "t0", updatedAt := toL "t0" }

/-- Witness for C1 on a fully-populated concrete contact. -/
theorem claim_C1_witness :
    (parseVCard (generateVCard sampleFull (toL "20250101T000000Z"))).name =
        some sampleFull.name ∧
    (parseVCard (generateVCard sampleFull (toL "20250101T000000Z"))).company =
        sampleFull.company ∧
    (parseVCard (generateVCard sampleFull (toL "20250101T000000Z"))).title =
        sampleFull.title ∧
    (parseVCard (generateVCard sampleFull (toL "20250101T000000Z"))).phone.getD []
        = sampleFull.phone.getD [] ∧
    (parseVCard (generateVCard sampleFull (toL "20250101T000000Z"))).email.getD []
        = sampleFull.email.getD [] := by
  apply claim_C1_vcard_roundtrip sampleFull (toL "20250101T000000Z")
  · decide
  · decide
  · decide
  · intro v hv
    obtain rfl := Option.some.inj hv
    decide
  · intro v hv
    obtain rfl := Option.some.inj hv
    decide
  · intro ps hps
    obtain rfl := Option.some.inj hps
    decide
  · intro es hes
    obtain rfl := Option.some.inj hes
    decide
  · intro v hv
    obtain rfl := Option.some.inj hv
    decide
  · intro v hv
    obtain rfl := Option.some.inj hv
    decide
  · intro v hv
    obtain rfl := Option.some.inj hv
    decide
  · decide

def sampleTrail : Contact := { id := toL "1", name := toL "Jane " }

/-- C1 refuted as stated: a contact whose (non-empty) name carries a
trailing space does not survive the round trip, because the parser trims
the FN value. -/
theorem claim_C1_counterexample :
    (parseVCard (generateVCard sampleTrail (toL "R"))).name ≠
      some sampleTrail.name := by
  decide

/-!
## Claim C3
-/

/-- Papa Parse's unquoting of a cell, modelled for cells without embedded
quotes: surrounding double quotes are removed. -/
def papaUnquote (f : JStr) : JStr :=
  match f with
  | '"' :: rest => if rest.getLast? = some '"' then rest.dropLast else f
  | _ => f

/-- The CSV branch of handleParseDocument applied to exported content with
a single data row: split into lines, transform the headers, unquote the
cells, and map the keyed row to a contact.  The tokenisation models Papa
Parse on the restricted content the export produces (no embedded quotes,
commas or line breaks in cells). -/
def importCsvSingle (content fileName id now : JStr) : Option Contact :=
  match jsSplit (fun c => c = '\n') content with
  | headerLine :: rowLine :: _ =>
    let headers := (jsSplit (fun c => c = ',') headerLine).map transformHeader
    let fields := (jsSplit (fun c => c = ',') rowLine).map papaUnquote
    csvRowToContact (headers.zip fields) fileName id now
  | _ => none

/-- The row object Papa produces for the exporter's header line. -/
def mkRow (n t co ph em ad we no : JStr) : CsvRow :=
  [(toL "name", n), (toL "title", t), (toL "company", co), (toL "phone", ph),
   (toL "email", em), (toL "address", ad), (toL "website", we), (toL "notes", no)]

theorem papaUnquote_quote (v : JStr) : papaUnquote (csvQuote v) = v := by
  show (if (v ++ ['"']).getLast? = some '"' then (v ++ ['"']).dropLast
        else '"' :: (v ++ ['"'])) = v
  rw [List.getLast?_concat, if_pos rfl, List.dropLast_concat]

theorem jsSplit_joinSep (p : Char → Bool) (s : Char) (hs : p s)
    (vs : List JStr) (hne : vs ≠ []) (hvs : ∀ v ∈ vs, ∀ c ∈ v, ¬ p c) :
    jsSplit p (joinSep [s] vs) = vs := by
  induction vs with
  | nil => exact absurd rfl hne
  | cons x xs ih =>
    cases xs with
    | nil =>
      rw [show joinSep [s] [x] = x from rfl]
      exact jsSplit_sepFree p x (hvs x (List.mem_cons_self x []))
    | cons y ys =>
      rw [show joinSep [s] (x :: y :: ys) =
        x ++ s :: joinSep [s] (y :: ys) from by
          rw [show joinSep [s] (x :: y :: ys) =
            x ++ [s] ++ joinSep [s] (y :: ys) from rfl]
          simp]
      rw [jsSplit_append_sep p x _ s (hvs x (List.mem_cons_self x _)) hs]
      rw [ih (by simp) (fun v hv => hvs v (List.mem_cons_of_mem x hv))]

theorem ff_name (n t co ph em ad we no : JStr) (hn : ¬ n = []) :
    findField (mkRow n t co ph em ad we no)
      [toL "name", toL "fullname", toL "displayname", toL "person",
       toL "contactperson", toL "entryname"] = n := by
  show (if ¬ n = [] then n else (if ¬ n = [] then n else [])) = n
  rw [if_pos hn]

theorem ff_title (n t co ph em ad we no : JStr) :
    findField (mkRow n t co ph em ad we no)
      [toL "title", toL "job", toL "position", toL "role", toL "designation"] = t := by
  show (if ¬ t = [] then t else (if ¬ t = [] then t else [])) = t
  by_cases ht : t = [] <;> simp [ht]

theorem ff_company (n t co ph em ad we no : JStr) :
    findField (mkRow n t co ph em ad we no)
      [toL "company", toL "organization", toL "firm", toL "business",
       toL "org"] = co := by
  show (if ¬ co = [] then co else (if ¬ co = [] then co else [])) = co
  by_cases hc : co = [] <;> simp [hc]

theorem ff_phone (n t co ph em ad we no : JStr) :
    findField (mkRow n t co ph em ad we no)
      [toL "phone", toL "mobile", toL "tel", toL "cell", toL "mob"] = ph := by
  show (if ¬ ph = [] then ph else (if ¬ ph = [] then ph else [])) = ph
  by_cases hp : ph = [] <;> simp [hp]

theorem ff_email (n t co ph em ad we no : JStr) :
    findField (mkRow n t co ph em ad we no)
      [toL "email", toL "mail", toL "mailbox", toL "emailid"] = em := by
  show (if ¬ em = [] then em
        else (if ¬ em = [] then em else (if ¬ em = [] then em else []))) = em
  by_cases he : em = [] <;> simp [he]

theorem ff_address (n t co ph em ad we no : JStr) :
    findField (mkRow n t co ph em ad we no)
      [toL "address", toL "location", toL "street", toL "city", toL "addr",
       toL "loc"] = ad := by
  show (if ¬ ad = [] then ad
        else (if ¬ ad = [] then ad else (if ¬ ad = [] then ad else []))) = ad
  by_cases ha : ad = [] <;> simp [ha]

theorem ff_website (n t co ph em ad we no : JStr) :
    findField (mkRow n t co ph em ad we no)
      [toL "website", toL "url", toL "site", toL "web", toL "www"] = we := by
  show (if ¬ we = [] then we
        else (if ¬ we = [] then we
          else (if ¬ we = [] then we
            else (if ¬ we = [] then we else [])))) = we
  by_cases hw : we = [] <;> simp [hw]

theorem ff_notes (n t co ph em ad we no : JStr) :
    findField (mkRow n t co ph em ad we no)
      [toL "notes", toL "comments", toL "desc", toL "info", toL "remarks"] = no := by
  show (if ¬ no = [] then no else (if ¬ no = [] then no else [])) = no
  by_cases hn : no = [] <;> simp [hn]

theorem csvRowToContact_mkRow (n t co ph em ad we no fileName id now : JStr)
    (hn : ¬ n = []) :
    csvRowToContact (mkRow n t co ph em ad we no) fileName id now =
      some { id := id, name := n, title := some t, company := some co,
             phone := some (splitCsvList ph), email := some (splitCsvList em),
             address := some ad, website := some we,
             notes := some (if no = [] then toL "Source: " ++ fileName else no),
             cardImageUrl := none, isFavorite := false,
             createdAt := now, updatedAt := now } := by
  unfold csvRowToContact
  simp only [ff_name n t co ph em ad we no hn, ff_title, ff_company, ff_phone,
    ff_email, ff_address, ff_website, ff_notes]
  rw [if_neg hn, if_neg hn]

theorem jsTrim_cons_ws (c : Char) (l : JStr) (hc : isJsWs c) :
    jsTrim (c :: l) = jsTrim l := by
  unfold jsTrim
  rw [List.dropWhile_cons_of_pos hc]

theorem splitCsvList_joinSep (ps : List JStr)
    (h : ∀ q ∈ ps, ¬ q = [] ∧ jsTrim q = q ∧ ∀ ch ∈ q, ¬ (ch = ';' ∨ ch = ',')) :
    splitCsvList (joinSep (toL "; ") ps) = ps := by
  induction ps with
  | nil => rfl
  | cons q rest ih =>
    cases rest with
    | nil =>
      rcases h q (List.mem_cons_self q []) with ⟨hq, htr, hsf⟩
      unfold splitCsvList
      rw [show joinSep (toL "; ") [q] = q from rfl]
      rw [jsSplit_sepFree _ q (fun ch hch => by
        intro hb
        exact hsf ch hch (by simpa using hb))]
      rw [show List.map jsTrim [q] = [jsTrim q] from rfl, htr]
      rw [List.filter_cons, if_pos (by simpa using hq)]
      rfl
    | cons q2 rest2 =>
      rcases h q (List.mem_cons_self q _) with ⟨hq, htr, hsf⟩
      unfold splitCsvList at ih ⊢
      have hjoin : joinSep (toL "; ") (q :: q2 :: rest2) =
          q ++ ';' :: (' ' :: joinSep (toL "; ") (q2 :: rest2)) := by
        rw [show joinSep (toL "; ") (q :: q2 :: rest2) =
          q ++ toL "; " ++ joinSep (toL "; ") (q2 :: rest2) from rfl]
        simp [toL]
      rw [hjoin, jsSplit_append_sep _ q _ ';'
        (fun ch hch => by
          intro hb
          exact hsf ch hch (by simpa using hb))
        (by simp)]
      cases hs2 : jsSplit (fun c => c = ';' ∨ c = ',')
          (joinSep (toL "; ") (q2 :: rest2)) with
      | nil => exact absurd hs2 (jsSplit_ne_nil _ _)
      | cons h2 t2 =>
        have hcons : jsSplit (fun c => c = ';' ∨ c = ',')
            (' ' :: joinSep (toL "; ") (q2 :: rest2)) = (' ' :: h2) :: t2 := by
          unfold jsSplit at hs2 ⊢
          rw [List.splitOnP_cons, if_neg (by simp), hs2]
          rfl
        rw [hcons]
        have ihr := ih (fun x hx => h x (List.mem_cons_of_mem q hx))
        rw [hs2] at ihr
        show ((q :: (' ' :: h2) :: t2).map jsTrim).filter (fun x => ¬ x = []) =
          q :: q2 :: rest2
        rw [show (q :: (' ' :: h2) :: t2).map jsTrim =
          jsTrim q :: jsTrim (' ' :: h2) :: t2.map jsTrim from rfl]
        rw [jsTrim_cons_ws ' ' h2 (by decide), htr]
        rw [List.filter_cons, if_pos (by simpa using hq)]
        rw [show jsTrim h2 :: t2.map jsTrim = (h2 :: t2).map jsTrim from rfl]
        rw [ihr]

/-- A field value that embeds into the exported CSV unchanged: free of
double quotes, commas and line breaks. -/
def csvSafe (v : JStr) : Prop :=
  ∀ ch ∈ v, ¬ (ch = '"' ∨ ch = ',' ∨ ch = '\n' ∨ ch = '\r')

instance (v : JStr) : Decidable (csvSafe v) := by
  unfold csvSafe
  infer_instance

theorem csvQuote_mem (v : JStr) (ch : Char) (h : ch ∈ csvQuote v) :
    ch = '"' ∨ ch ∈ v := by
  unfold csvQuote at h
  rcases List.mem_cons.mp h with h1 | h1
  · exact Or.inl h1
  · rcases List.mem_append.mp h1 with h2 | h2
    · exact Or.inr h2
    · simp at h2
      exact Or.inl h2

theorem csvSafe_joinSep (ps : List JStr) (h : ∀ q ∈ ps, csvSafe q) :
    csvSafe (joinSep (toL "; ") ps) := by
  intro ch hch
  rcases mem_joinSep _ _ _ hch with hsep | ⟨x, hx, hcx⟩
  · have h2 : ch = ';' ∨ ch = ' ' := by simpa [toL] using hsep
    rcases h2 with rfl | rfl <;> decide
  · exact h x hx ch hcx

/-- C3: exporting a single contact to CSV and mapping the data row back
through the CSV branch reproduces name, title, company and the phone/email
sequences, for fields free of quotes, commas and line breaks whose
phone/email entries are non-empty, trim-fixed and semicolon-free. -/
theorem claim_C3 (c : Contact) (fileName id now : JStr)
    (hname : ¬ c.name = [])
    (hsn : csvSafe c.name)
    (hst : csvSafe (c.title.getD []))
    (hsc : csvSafe (c.company.getD []))
    (hsa : csvSafe (c.address.getD []))
    (hsw : csvSafe (c.website.getD []))
    (hsno : csvSafe (c.notes.getD []))
    (hph : ∀ q ∈ c.phone.getD [], ¬ q = [] ∧ jsTrim q = q ∧ csvSafe q ∧ ¬ ';' ∈ q)
    (hem : ∀ q ∈ c.email.getD [], ¬ q = [] ∧ jsTrim q = q ∧ csvSafe q ∧ ¬ ';' ∈ q) :
    ∃ c2, importCsvSingle (handleExportContacts [c]) fileName id now = some c2 ∧
      c2.name = c.name ∧ c2.title.getD [] = c.title.getD [] ∧
      c2.company.getD [] = c.company.getD [] ∧
      c2.phone.getD [] = c.phone.getD [] ∧
      c2.email.getD [] = c.email.getD [] := by
  have hcells : ∀ cell ∈ [csvQuote c.name, csvQuote (c.title.getD []),
      csvQuote (c.company.getD []),
      csvQuote (joinSep (toL "; ") (c.phone.getD [])),
      csvQuote (joinSep (toL "; ") (c.email.getD [])),
      csvQuote (c.address.getD []), csvQuote (c.website.getD []),
      csvQuote (c.notes.getD [])],
      ∀ ch ∈ cell, ¬ ch = ',' ∧ ¬ ch = '\n' := by
    have hsafe : ∀ v, csvSafe v → ∀ ch ∈ csvQuote v, ¬ ch = ',' ∧ ¬ ch = '\n' := by
      intro v hv ch hm
      rcases csvQuote_mem v ch hm with rfl | hin
      · exact ⟨by decide, by decide⟩
      · have h3 := hv ch hin
        exact ⟨fun hh => h3 (Or.inr (Or.inl hh)),
               fun hh => h3 (Or.inr (Or.inr (Or.inl hh)))⟩
    intro cell hcell
    simp only [List.mem_cons, List.not_mem_nil, or_false] at hcell
    rcases hcell with rfl | rfl | rfl | rfl | rfl | rfl | rfl | rfl
    · exact hsafe _ hsn
    · exact hsafe _ hst
    · exact hsafe _ hsc
    · exact hsafe _ (csvSafe_joinSep _ (fun q hq => (hph q hq).2.2.1))
    · exact hsafe _ (csvSafe_joinSep _ (fun q hq => (hem q hq).2.2.1))
    · exact hsafe _ hsa
    · exact hsafe _ hsw
    · exact hsafe _ hsno
  have hrow : jsSplit (fun ch => ch = ',') (contactCsvRow c) =
      [csvQuote c.name, csvQuote (c.title.getD []),
       csvQuote (c.company.getD []),
       csvQuote (joinSep (toL "; ") (c.phone.getD [])),
       csvQuote (joinSep (toL "; ") (c.email.getD [])),
       csvQuote (c.address.getD []), csvQuote (c.website.getD []),
       csvQuote (c.notes.getD [])] := by
    unfold contactCsvRow
    exact jsSplit_joinSep _ ',' (by decide) _ (by simp)
      (fun v hv ch hch => by simpa using (hcells v hv ch hch).1)
  have hcontent : jsSplit (fun ch => ch = '\n') (handleExportContacts [c]) =
      [csvHeaderLine, contactCsvRow c] := by
    unfold handleExportContacts
    refine jsSplit_joinSep _ '\n' (by decide) _ (by simp) ?_
    intro v hv ch hch
    rcases List.mem_cons.mp hv with rfl | hv2
    · have hhd : ∀ x ∈ csvHeaderLine, ¬ x = '\n' := by decide
      simpa using hhd ch hch
    · have hv3 : v = contactCsvRow c := by simpa using hv2
      subst hv3
      unfold contactCsvRow at hch
      rcases mem_joinSep _ _ _ hch with h1 | ⟨x, hx, hcx⟩
      · have h2 : ch = ',' := by simpa [toL] using h1
        subst h2
        decide
      · simpa using (hcells x hx ch hcx).2
  have hheaders : (jsSplit (fun ch => ch = ',') csvHeaderLine).map transformHeader =
      [toL "name", toL "title", toL "company", toL "phone", toL "email",
       toL "address", toL "website", toL "notes"] := by decide
  have hfields : (jsSplit (fun ch => ch = ',') (contactCsvRow c)).map papaUnquote =
      [c.name, c.title.getD [], c.company.getD [],
       joinSep (toL "; ") (c.phone.getD []), joinSep (toL "; ") (c.email.getD []),
       c.address.getD [], c.website.getD [], c.notes.getD []] := by
    rw [hrow]
    simp only [List.map_cons, List.map_nil, papaUnquote_quote]
  have himp : importCsvSingle (handleExportContacts [c]) fileName id now =
      csvRowToContact (mkRow c.name (c.title.getD []) (c.company.getD [])
        (joinSep (toL "; ") (c.phone.getD []))
        (joinSep (toL "; ") (c.email.getD []))
        (c.address.getD []) (c.website.getD []) (c.notes.getD []))
        fileName id now := by
    unfold importCsvSingle
    rw [hcontent]
    show csvRowToContact
        (((jsSplit (fun ch => ch = ',') csvHeaderLine).map transformHeader).zip
         ((jsSplit (fun ch => ch = ',') (contactCsvRow c)).map papaUnquote))
        fileName id now = _
    rw [hheaders, hfields]
    rfl
  rw [csvRowToContact_mkRow _ _ _ _ _ _ _ _ fileName id now hname] at himp
  have hphone : splitCsvList (joinSep (toL "; ") (c.phone.getD [])) =
      c.phone.getD [] :=
    splitCsvList_joinSep _ (fun q hq =>
      ⟨(hph q hq).1, (hph q hq).2.1, fun ch hch hb => by
        rcases hb with rfl | rfl
        · exact (hph q hq).2.2.2 hch
        · exact (hph q hq).2.2.1 _ hch (Or.inr (Or.inl rfl))⟩)
  have hemail : splitCsvList (joinSep (toL "; ") (c.email.getD [])) =
      c.email.getD [] :=
    splitCsvList_joinSep _ (fun q hq =>
      ⟨(hem q hq).1, (hem q hq).2.1, fun ch hch hb => by
        rcases hb with rfl | rfl
        · exact (hem q hq).2.2.2 hch
        · exact (hem q hq).2.2.1 _ hch (Or.inr (Or.inl rfl))⟩)
  refine ⟨_, himp, rfl, rfl, rfl, ?_, ?_⟩
  · show splitCsvList (joinSep (toL "; ") (c.phone.getD [])) = c.phone.getD []
    exact hphone
  · show splitCsvList (joinSep (toL "; ") (c.email.getD [])) = c.email.getD []
    exact hemail

def sampleIda : Contact :=
  { id := toL "9", name := toL "Ida Lang", title := some (toL "CEO"),
    company := some (toL "Acme"), phone := some [toL "123", toL "456"],
    email := some [toL "ida@acme.io"], notes := some (toL "met at expo") }

theorem claim_C3_witness :
    ∃ c2, importCsvSingle (handleExportContacts [sampleIda]) (toL "f.csv")
        (toL "id1") (toL "now") = some c2 ∧
      c2.name = sampleIda.name ∧
      c2.title.getD [] = sampleIda.title.getD [] ∧
      c2.company.getD [] = sampleIda.company.getD [] ∧
      c2.phone.getD [] = sampleIda.phone.getD [] ∧
      c2.email.getD [] = sampleIda.email.getD [] :=
  claim_C3 sampleIda (toL "f.csv") (toL "id1") (toL "now")
    (by decide) (by decide) (by decide) (by decide) (by decide) (by decide)
    (by decide) (by decide) (by decide)

def sampleSemi : Contact :=
  { id := toL "9", name := toL "Ida", phone := some [toL "12;34"] }

theorem claim_C3_counterexample :
    (∀ ch ∈ toL "12;34", ¬ (ch = ',' ∨ ch = '"')) ∧
    sampleSemi.phone = some [toL "12;34"] ∧
    (importCsvSingle (handleExportContacts [sampleSemi]) (toL "f.csv")
        (toL "id1") (toL "now")).map (fun c2 => c2.phone) =
      some (some [toL "12", toL "34"]) := by decide
